import Mathlib

/-!
Verification development for the enex2md conversion pipeline.

The Lean definitions below are a shallow embedding of the Python sources:
enex2all.py (batch controller, per-archive orchestration, failure journal),
src/parser.py (streaming ENEX parser), and src/converter.py (resource
processing, OCR gating, content transformation).  Pure string manipulation
from Python (str.strip, re.sub over a character class, os.path.splitext,
str(n) for a natural number, xml escaping) is re-implemented character by
character; stateful code (the filename collision table, the failure journal
read-merge-write, the resume check against already produced artifacts) is
embedded as explicit state passing.  External effects (filesystem, PIL,
tesseract, hashing) are passed in as explicit function-valued environments,
so every definition stays executable.
-/

namespace Enex2md

/-! ### Python string primitives -/

/-- Whitespace test matching what Python str.strip and the regex class
backslash-s treat as whitespace, restricted to the code points that occur in
this development (ASCII whitespace plus the Unicode spaces, including the
ideographic space U+3000). -/
def isPySpaceChar (c : Char) : Bool :=
  c = ' ' || c = '\t' || c = '\n' || c = '\r' || c.toNat = 0x0b || c.toNat = 0x0c ||
  c.toNat = 0x1c || c.toNat = 0x1d || c.toNat = 0x1e || c.toNat = 0x1f ||
  c.toNat = 0x85 || c.toNat = 0xa0 || c.toNat = 0x1680 ||
  (0x2000 ≤ c.toNat && c.toNat ≤ 0x200a) ||
  c.toNat = 0x2028 || c.toNat = 0x2029 || c.toNat = 0x202f ||
  c.toNat = 0x205f || c.toNat = 0x3000

/-- Embedding of Python str.strip(): drop leading and trailing whitespace. -/
def pyStrip (s : String) : String :=
  ⟨((s.data.dropWhile isPySpaceChar).reverse.dropWhile isPySpaceChar).reverse⟩

/-- Characters matched by the sanitization regex class in
converter._sanitize_filename and PdfFormatter._sanitize_filename. -/
def isBadFsChar (c : Char) : Bool :=
  c = '<' || c = '>' || c = ':' || c = '"' || c = '/' || c = '\\' ||
  c = '|' || c = '?' || c = '*'

/-- Embedding of re.sub over the filesystem-illegal character class: every
matching character is replaced by the configured substitute string ch. -/
def subBadChars (ch : String) (s : String) : String :=
  ⟨(s.data.map fun c => if isBadFsChar c then ch.data else [c]).flatten⟩

/-- Embedding of NoteConverter._sanitize_filename (converter.py): substitute
illegal characters, strip, cap at 100 characters, strip again. -/
def convSanitize (ch : String) (name : String) : String :=
  let sanitized := pyStrip (subBadChars ch name)
  if sanitized.length > 100 then pyStrip ⟨sanitized.data.take 100⟩ else sanitized

/-- Embedding of PdfFormatter._sanitize_filename (formatter_pdf.py):
substitute illegal characters and strip, with no length cap. -/
def pdfSanitize (ch : String) (name : String) : String :=
  pyStrip (subBadChars ch name)

/-- Decimal digits of a positive number, most significant first, by repeated
division; fuel keeps the recursion structural. -/
def natDigitsAux : Nat → Nat → List Char
  | 0, _ => []
  | _ + 1, 0 => []
  | fuel + 1, n => natDigitsAux fuel (n / 10) ++ [Nat.digitChar (n % 10)]

/-- Embedding of Python str(n) for a nonnegative integer counter. -/
def natToString (n : Nat) : String :=
  if n = 0 then "0" else ⟨natDigitsAux (n + 1) n⟩

/-! ### Failure journal (enex2all.process_enex, fail-log write) -/

/-- Journal entry: the dict entries written by process_enex carry the enex
name (source identity), the note title (the parser can yield a missing title,
so the JSON value may be null) and a reason; a legacy entry is a bare title
string, keyed with an empty source identity. -/
inductive JEntry where
  | dict (enexName : String) (title : Option String) (reason : String)
  | legacy (title : String)
deriving DecidableEq, Repr

/-- Key used for dedup, mirroring the (enex_name, title) tuples built in the
write loop of process_enex. -/
def JEntry.key : JEntry → String × Option String
  | .dict e t _ => (e, t)
  | .legacy t => ("", some t)

/-- Dedup pass of the journal write: keep an entry only when its key has not
been seen yet (first occurrence wins), exactly as the seen_keys loop in
process_enex. -/
def dedupByKey (seen : List (String × Option String)) : List JEntry → List JEntry
  | [] => []
  | e :: rest =>
    if e.key ∈ seen then dedupByKey seen rest
    else e :: dedupByKey (e.key :: seen) rest

/-- Embedding of one failure-journal write: existing journal contents are
concatenated with the newly failed notes and deduplicated by key. -/
def journalWrite (existing newFailures : List JEntry) : List JEntry :=
  dedupByKey [] (existing ++ newFailures)

theorem dedupByKey_keys_nodup (l : List JEntry) (seen : List (String × Option String)) :
    ((dedupByKey seen l).map JEntry.key).Nodup ∧
      ∀ e ∈ dedupByKey seen l, e.key ∉ seen := by
  induction l generalizing seen with
  | nil => simp [dedupByKey]
  | cons e rest ih =>
    by_cases h : e.key ∈ seen
    · simpa [dedupByKey, h] using ih seen
    · have h2 := ih (e.key :: seen)
      refine ⟨?_, ?_⟩
      · simp only [dedupByKey, h, if_false, List.map_cons, List.nodup_cons]
        refine ⟨?_, h2.1⟩
        intro hmem
        rcases List.mem_map.mp hmem with ⟨e2, he2, hkey⟩
        exact (h2.2 e2 he2) (by simp [hkey])
      · intro e2 he2
        simp only [dedupByKey, h, if_false, List.mem_cons] at he2
        rcases he2 with rfl | he2
        · exact h
        · have := h2.2 e2 he2
          intro hc
          exact this (List.mem_cons_of_mem _ hc)

theorem dedupByKey_find (l : List JEntry) (seen : List (String × Option String)) (k : String × Option String)
    (hk : k ∉ seen) :
    (dedupByKey seen l).find? (fun e => e.key = k) = l.find? (fun e => e.key = k) := by
  induction l generalizing seen with
  | nil => simp [dedupByKey]
  | cons e rest ih =>
    by_cases h : e.key ∈ seen
    · have hne : ¬ (e.key = k) := by
        intro hc; exact hk (hc ▸ h)
      rw [dedupByKey, if_pos h, ih seen hk, List.find?_cons_of_neg _ (by simpa using hne)]
    · by_cases hek : e.key = k
      · rw [dedupByKey, if_neg h, List.find?_cons_of_pos _ (by simpa using hek),
          List.find?_cons_of_pos _ (by simpa using hek)]
      · rw [dedupByKey, if_neg h, List.find?_cons_of_neg _ (by simpa using hek),
          List.find?_cons_of_neg _ (by simpa using hek)]
        refine ih (e.key :: seen) ?_
        intro hc
        rcases List.mem_cons.mp hc with h1 | h1
        · exact hek h1.symm
        · exact hk h1

/-- C1 (amended): after every write of the failure journal there is exactly
one entry per (sourceIdentity, title) key, and the surviving entry for a key
is the first entry recorded for that key in existing-journal-then-new order;
in particular, when the same key is recorded as failed across two runs the
surviving entry carries the earliest reason, not the most recent one. -/
theorem journal_dedup_first_occurrence_wins (existing newFailures : List JEntry) :
    ((journalWrite existing newFailures).map JEntry.key).Nodup ∧
      ∀ k, (journalWrite existing newFailures).find? (fun e => e.key = k) =
        (existing ++ newFailures).find? (fun e => e.key = k) :=
  ⟨(dedupByKey_keys_nodup (existing ++ newFailures) []).1,
   fun k => dedupByKey_find (existing ++ newFailures) [] k (by simp)⟩

/-- C1 counterexample: recording the same (sourceIdentity, title) key across
two runs keeps the first run's entry; the second run's reason r2 does not
survive the write, contradicting the claim that the most recent reason wins. -/
theorem journal_latest_reason_cex :
    journalWrite [JEntry.dict "nb" (some "t") "r1"] [JEntry.dict "nb" (some "t") "r2"] =
      [JEntry.dict "nb" (some "t") "r1"] ∧
    JEntry.dict "nb" (some "t") "r2" ∉
      journalWrite [JEntry.dict "nb" (some "t") "r1"] [JEntry.dict "nb" (some "t") "r2"] := by
  decide

/-! ### Output directory choice (converter.convert_note) -/

/-- Directory creation with exist_ok semantics: mkdir adds the directory to
the set of existing ones, a no-op when it is already present. -/
def dirInsert (d : String) (fs : List String) : List String :=
  if d ∈ fs then fs else d :: fs

/-- Embedding of the target-directory choice in convert_note: the directory
name is dateStr_sanitizedTitle; when that directory already exists the note
is redirected, once, to the variant suffixed with the first 4 hex digits of
the MD5 of the title.  The hash md4 is passed in as a function; only its
determinism matters.  mkdir(parents, exist_ok) then materializes the chosen
directory. -/
def chooseTargetDir (md4 : String → String) (fs : List String)
    (dateStr sanTitle title : String) : String × List String :=
  let dirName := dateStr ++ "_" ++ sanTitle
  let target := if dirName ∈ fs then dirName ++ "_" ++ md4 title else dirName
  (target, dirInsert target fs)

/-- Repeats convert_note's directory choice for n notes that share the same
date string, sanitized title and title within one run, threading the
filesystem state, and returns the chosen directories in order. -/
def iterateTargetDirs (md4 : String → String) (fs : List String)
    (dateStr sanTitle title : String) : Nat → List String
  | 0 => []
  | n + 1 =>
    let r := chooseTargetDir md4 fs dateStr sanTitle title
    r.1 :: iterateTargetDirs md4 r.2 dateStr sanTitle title n

theorem iterateTargetDirs_of_mem (md4 : String → String) (fs : List String)
    (dateStr sanTitle title : String) (n : Nat)
    (hmem : (dateStr ++ "_" ++ sanTitle) ∈ fs) :
    iterateTargetDirs md4 fs dateStr sanTitle title n =
      List.replicate n (dateStr ++ "_" ++ sanTitle ++ "_" ++ md4 title) := by
  induction n generalizing fs with
  | zero => simp [iterateTargetDirs]
  | succ n ih =>
    have hch : chooseTargetDir md4 fs dateStr sanTitle title =
        (dateStr ++ "_" ++ sanTitle ++ "_" ++ md4 title,
          dirInsert (dateStr ++ "_" ++ sanTitle ++ "_" ++ md4 title) fs) := by
      simp only [chooseTargetDir, if_pos hmem]
    have hmem2 : (dateStr ++ "_" ++ sanTitle) ∈
        dirInsert (dateStr ++ "_" ++ sanTitle ++ "_" ++ md4 title) fs := by
      unfold dirInsert
      split
      · exact hmem
      · exact List.mem_cons_of_mem _ hmem
    simp only [iterateTargetDirs, hch, List.replicate_succ, List.cons.injEq]
    exact ⟨trivial, ih _ hmem2⟩

/-- C10: when the computed output directory (date string + underscore +
sanitized title) does not exist yet, the first note claims it, and every
subsequent note in the same run with the same date and title resolves to the
single alternate directory suffixed with the 4 hex digits of the MD5 of the
title — the disambiguation is applied at most once and never compounds. -/
theorem convert_note_dir_disambiguation (md4 : String → String) (fs : List String)
    (dateStr sanTitle title : String) (n : Nat)
    (hfree : (dateStr ++ "_" ++ sanTitle) ∉ fs) :
    iterateTargetDirs md4 fs dateStr sanTitle title (n + 1) =
      (dateStr ++ "_" ++ sanTitle) ::
        List.replicate n (dateStr ++ "_" ++ sanTitle ++ "_" ++ md4 title) := by
  have hch : chooseTargetDir md4 fs dateStr sanTitle title =
      (dateStr ++ "_" ++ sanTitle, dirInsert (dateStr ++ "_" ++ sanTitle) fs) := by
    simp only [chooseTargetDir, if_neg hfree]
  have hmem : (dateStr ++ "_" ++ sanTitle) ∈ dirInsert (dateStr ++ "_" ++ sanTitle) fs := by
    unfold dirInsert
    split
    · assumption
    · exact List.mem_cons_self _ _
  simp only [iterateTargetDirs, hch, List.cons.injEq]
  exact ⟨trivial, iterateTargetDirs_of_mem md4 _ dateStr sanTitle title n hmem⟩

/-- C10 witness: three notes titled Note on 2023-05-01 processed from an
empty output root land in 2023-05-01_Note and then, twice, in the same
alternate directory 2023-05-01_Note_ab12. -/
theorem convert_note_dir_disambiguation_witness :
    iterateTargetDirs (fun _ => "ab12") [] "2023-05-01" "Note" "Note" 3 =
      ("2023-05-01" ++ "_" ++ "Note") ::
        List.replicate 2 ("2023-05-01" ++ "_" ++ "Note" ++ "_" ++ (fun _ : String => "ab12") "Note") :=
  convert_note_dir_disambiguation (fun _ => "ab12") [] "2023-05-01" "Note" "Note" 2
    (by decide)

/-! ### Resource filename assignment (converter._process_resources_parallel) -/

/-- Index of the last dot in a character list, if any. -/
def lastDotIdx (l : List Char) : Option Nat :=
  ((List.range l.length).filter (fun i => l.getD i ' ' = '.')).getLast?

/-- Embedding of os.path.splitext for the sanitized filenames used here
(no path separators survive sanitization): split at the last dot unless every
character before it is itself a dot, in which case there is no extension. -/
def splitext (s : String) : String × String :=
  match lastDotIdx s.data with
  | some i =>
    if (s.data.take i).all (fun c => c = '.') then (s, "")
    else (⟨s.data.take i⟩, ⟨s.data.drop i⟩)
  | none => (s, "")

/-- Candidate name produced by one iteration of the collision while loop:
name part, underscore, counter, extension. -/
def collisionCandidate (namePart ext : String) (k : Nat) : String :=
  namePart ++ "_" ++ natToString k ++ ext

/-- Embedding of the collision while loop of _process_resources_parallel:
while the current filename is in the seen table, replace it with the next
candidate and bump the counter.  Fuel keeps the recursion structural; the
callers pass enough fuel for the loop to always exit (proved below). -/
def resolveLoop (seen : List String) (namePart ext : String) :
    Nat → String → Nat → String
  | 0, fn, _ => fn
  | fuel + 1, fn, c =>
    if fn ∈ seen then
      resolveLoop seen namePart ext fuel (collisionCandidate namePart ext c) (c + 1)
    else fn

/-- Collision resolution for one resource: split the extension off the
sanitized filename and run the while loop starting from that filename with
the counter at 1. -/
def resolveCollision (seen : List String) (filename : String) : String :=
  let pe := splitext filename
  resolveLoop seen pe.1 pe.2 (seen.length + 1) filename 1

/-- Sequential first pass over the computed base filenames of one note's
resources: assign each a collision-free name and record it in the seen
table, exactly as the first loop of _process_resources_parallel. -/
def assignFilenames (seen : List String) : List String → List String
  | [] => []
  | base :: rest =>
    let fn := resolveCollision seen base
    fn :: assignFilenames (fn :: seen) rest

/-- Sequence of names the while loop can examine, starting from fn with the
counter at c: try 0 is fn itself, try k+1 is the candidate for counter c+k. -/
def tryAt (np ext fn : String) (c : Nat) : Nat → String
  | 0 => fn
  | k + 1 => collisionCandidate np ext (c + k)

theorem natDigitsAux_fuelIrrel (n : Nat) : ∀ fuel fuel2 : Nat, n < fuel → n < fuel2 →
    natDigitsAux fuel n = natDigitsAux fuel2 n := by
  induction n using Nat.strong_induction_on with
  | _ n ih =>
    intro fuel fuel2 h1 h2
    match fuel, fuel2, n with
    | f + 1, g + 1, 0 => rfl
    | f + 1, g + 1, n + 1 =>
      have hdiv : (n + 1) / 10 < n + 1 := Nat.div_lt_self (Nat.succ_pos n) (by norm_num)
      have hf : (n + 1) / 10 < f := lt_of_lt_of_le hdiv (Nat.lt_succ_iff.mp h1)
      have hg : (n + 1) / 10 < g := lt_of_lt_of_le hdiv (Nat.lt_succ_iff.mp h2)
      show natDigitsAux f ((n + 1) / 10) ++ _ = natDigitsAux g ((n + 1) / 10) ++ _
      rw [ih ((n + 1) / 10) hdiv f g hf hg]

theorem digitChar_inj_lt (a b : Nat) (ha : a < 10) (hb : b < 10)
    (h : Nat.digitChar a = Nat.digitChar b) : a = b := by
  have : ∀ x : Fin 10, ∀ y : Fin 10, Nat.digitChar x.val = Nat.digitChar y.val → x = y := by
    decide
  have := this ⟨a, ha⟩ ⟨b, hb⟩ h
  exact congrArg Fin.val this

theorem natDigitsAux_inj (m : Nat) : ∀ n fuel fuel2 : Nat, m < fuel → n < fuel2 →
    natDigitsAux fuel m = natDigitsAux fuel2 n → m = n := by
  induction m using Nat.strong_induction_on with
  | _ m ih =>
    intro n fuel fuel2 h1 h2 heq
    match fuel, fuel2, m, n with
    | f + 1, g + 1, 0, 0 => rfl
    | f + 1, g + 1, 0, n + 1 =>
      exfalso
      have : ([] : List Char) = natDigitsAux g ((n + 1) / 10) ++ [Nat.digitChar ((n + 1) % 10)] := heq
      simpa using this.symm
    | f + 1, g + 1, m + 1, 0 =>
      exfalso
      have : natDigitsAux f ((m + 1) / 10) ++ [Nat.digitChar ((m + 1) % 10)] = ([] : List Char) := heq
      simp at this
    | f + 1, g + 1, m + 1, n + 1 =>
      have heq2 : natDigitsAux f ((m + 1) / 10) ++ [Nat.digitChar ((m + 1) % 10)] =
          natDigitsAux g ((n + 1) / 10) ++ [Nat.digitChar ((n + 1) % 10)] := heq
      have hlen : [Nat.digitChar ((m + 1) % 10)].length = [Nat.digitChar ((n + 1) % 10)].length := rfl
      obtain ⟨hinit, hlast⟩ := List.append_inj' heq2 hlen
      have hmod : (m + 1) % 10 = (n + 1) % 10 := by
        have := List.head_eq_of_cons_eq hlast
        exact digitChar_inj_lt _ _ (Nat.mod_lt _ (by norm_num)) (Nat.mod_lt _ (by norm_num)) this
      have hdivm : (m + 1) / 10 < m + 1 := Nat.div_lt_self (Nat.succ_pos m) (by norm_num)
      have hdivn : (n + 1) / 10 < n + 1 := Nat.div_lt_self (Nat.succ_pos n) (by norm_num)
      have hdiv : (m + 1) / 10 = (n + 1) / 10 :=
        ih ((m + 1) / 10) hdivm ((n + 1) / 10) f g
          (lt_of_lt_of_le hdivm (Nat.lt_succ_iff.mp h1))
          (lt_of_lt_of_le hdivn (Nat.lt_succ_iff.mp h2)) hinit
      omega

theorem natToString_inj_pos (m n : Nat) (hm : 0 < m) (hn : 0 < n)
    (h : natToString m = natToString n) : m = n := by
  unfold natToString at h
  rw [if_neg (Nat.pos_iff_ne_zero.mp hm), if_neg (Nat.pos_iff_ne_zero.mp hn)] at h
  have hdata : natDigitsAux (m + 1) m = natDigitsAux (n + 1) n := congrArg String.data h
  exact natDigitsAux_inj m n (m + 1) (n + 1) (Nat.lt_succ_self m) (Nat.lt_succ_self n) hdata

theorem natToString_pos_ne_empty (n : Nat) (hn : 0 < n) : (natToString n).data ≠ [] := by
  unfold natToString
  rw [if_neg (Nat.pos_iff_ne_zero.mp hn)]
  match n, hn with
  | n + 1, _ =>
    show natDigitsAux (n + 1) ((n + 1) / 10) ++ [Nat.digitChar ((n + 1) % 10)] ≠ []
    simp

theorem collisionCandidate_inj (np ext : String) (k j : Nat) (hk : 0 < k) (hj : 0 < j)
    (h : collisionCandidate np ext k = collisionCandidate np ext j) : k = j := by
  have hd : ((np.data ++ ('_' :: [])) ++ (natToString k).data) ++ ext.data
      = ((np.data ++ ('_' :: [])) ++ (natToString j).data) ++ ext.data :=
    congrArg String.data h
  have h1 := List.append_cancel_right hd
  have h2 := List.append_cancel_left h1
  exact natToString_inj_pos k j hk hj (congrArg String.mk h2)

theorem orig_ne_candidate (np ext : String) (k : Nat) (hk : 0 < k) :
    np ++ ext ≠ collisionCandidate np ext k := by
  intro h
  have hd : np.data ++ ext.data
      = ((np.data ++ ('_' :: [])) ++ (natToString k).data) ++ ext.data :=
    congrArg String.data h
  have hlen := congrArg List.length hd
  have hpos : 0 < (natToString k).data.length :=
    List.length_pos.mpr (natToString_pos_ne_empty k hk)
  simp [List.length_append] at hlen
  omega

theorem tryAt_inj (np ext : String) (a b : Nat)
    (h : tryAt np ext (np ++ ext) 1 a = tryAt np ext (np ++ ext) 1 b) : a = b := by
  match a, b with
  | 0, 0 => rfl
  | 0, b + 1 => exact absurd h (orig_ne_candidate np ext (1 + b) (by omega))
  | a + 1, 0 => exact absurd h.symm (orig_ne_candidate np ext (1 + a) (by omega))
  | a + 1, b + 1 =>
    have := collisionCandidate_inj np ext (1 + a) (1 + b) (by omega) (by omega) h
    omega

theorem exists_free_tryAt (seen : List String) (np ext : String) :
    ∃ k, k < seen.length + 1 ∧ tryAt np ext (np ++ ext) 1 k ∉ seen := by
  by_contra hall
  push_neg at hall
  have hcard : (Finset.univ : Finset (Fin (seen.length + 1))).card ≤ seen.toFinset.card := by
    apply Finset.card_le_card_of_injOn (fun i => tryAt np ext (np ++ ext) 1 i.val)
    · intro i _
      exact List.mem_toFinset.mpr (hall i.val i.isLt)
    · intro i _ j _ h
      exact Fin.ext (tryAt_inj np ext i.val j.val h)
  have h1 : (Finset.univ : Finset (Fin (seen.length + 1))).card = seen.length + 1 := by
    simp
  have h2 : seen.toFinset.card ≤ seen.length := seen.toFinset_card_le
  omega

theorem resolveLoop_char (seen : List String) (np ext : String) :
    ∀ fuel fn c, (∃ k, k < fuel ∧ tryAt np ext fn c k ∉ seen) →
      (fn ∉ seen ∧ resolveLoop seen np ext fuel fn c = fn) ∨
      (fn ∈ seen ∧ ∃ k, c ≤ k ∧
        resolveLoop seen np ext fuel fn c = collisionCandidate np ext k ∧
        collisionCandidate np ext k ∉ seen ∧
        ∀ j, c ≤ j → j < k → collisionCandidate np ext j ∈ seen) := by
  intro fuel
  induction fuel with
  | zero =>
    intro fn c h
    obtain ⟨k, hk, _⟩ := h
    omega
  | succ fuel ih =>
    intro fn c h
    by_cases hfn : fn ∈ seen
    · right
      refine ⟨hfn, ?_⟩
      have hstep : resolveLoop seen np ext (fuel + 1) fn c =
          resolveLoop seen np ext fuel (collisionCandidate np ext c) (c + 1) := by
        simp [resolveLoop, hfn]
      obtain ⟨k, hk, hknot⟩ := h
      have hex2 : ∃ k2, k2 < fuel ∧
          tryAt np ext (collisionCandidate np ext c) (c + 1) k2 ∉ seen := by
        match k, hknot with
        | 0, hknot => exact absurd hfn hknot
        | 1, hknot =>
          refine ⟨0, by omega, ?_⟩
          simpa [tryAt] using hknot
        | k2 + 2, hknot =>
          refine ⟨k2 + 1, by omega, ?_⟩
          have harith : c + (k2 + 1) = (c + 1) + k2 := by omega
          simpa [tryAt, harith] using hknot
      have hres := ih (collisionCandidate np ext c) (c + 1) hex2
      rcases hres with ⟨hnot, heq⟩ | ⟨hmem, k2, hk2, heq, hnot, hall⟩
      · exact ⟨c, le_refl c, by rw [hstep, heq], hnot,
          fun j hj1 hj2 => absurd hj2 (by omega)⟩
      · refine ⟨k2, by omega, by rw [hstep, heq], hnot, ?_⟩
        intro j hj1 hj2
        rcases Nat.eq_or_lt_of_le hj1 with hj | hj
        · exact hj ▸ hmem
        · exact hall j (by omega) hj2
    · left
      exact ⟨hfn, by simp [resolveLoop, hfn]⟩

theorem splitext_concat (s : String) : (splitext s).1 ++ (splitext s).2 = s := by
  unfold splitext
  cases h : lastDotIdx s.data with
  | none =>
    simp only [h]
    exact congrArg String.mk (List.append_nil _)
  | some i =>
    simp only [h]
    split
    · exact congrArg String.mk (List.append_nil _)
    · exact congrArg String.mk (List.take_append_drop i s.data)

theorem resolveCollision_spec (seen : List String) (base : String) :
    (base ∉ seen → resolveCollision seen base = base) ∧
    resolveCollision seen base ∉ seen ∧
    (base ∈ seen → ∃ k, 1 ≤ k ∧
      resolveCollision seen base =
        collisionCandidate (splitext base).1 (splitext base).2 k ∧
      ∀ j, 1 ≤ j → j < k →
        collisionCandidate (splitext base).1 (splitext base).2 j ∈ seen) := by
  have hconcat := splitext_concat base
  have hex : ∃ k, k < seen.length + 1 ∧
      tryAt (splitext base).1 (splitext base).2 base 1 k ∉ seen := by
    obtain ⟨k, hk, hnot⟩ := exists_free_tryAt seen (splitext base).1 (splitext base).2
    refine ⟨k, hk, ?_⟩
    cases k with
    | zero => simpa [tryAt, hconcat] using hnot
    | succ k => simpa [tryAt] using hnot
  have hloop : resolveCollision seen base =
      resolveLoop seen (splitext base).1 (splitext base).2 (seen.length + 1) base 1 := rfl
  have hchar := resolveLoop_char seen (splitext base).1 (splitext base).2
    (seen.length + 1) base 1 hex
  rcases hchar with ⟨hnot, heq⟩ | ⟨hmem, k, hk, heq, hnot, hall⟩
  · refine ⟨fun _ => hloop.trans heq, ?_, fun hc => absurd hc hnot⟩
    rw [hloop, heq]
    exact hnot
  · refine ⟨fun hc => absurd hmem hc, ?_, fun _ => ⟨k, hk, hloop.trans heq, hall⟩⟩
    rw [hloop, heq]
    exact hnot

theorem assignFilenames_spec (bases : List String) :
    ∀ seen, (assignFilenames seen bases).Nodup ∧
      ∀ fn ∈ assignFilenames seen bases, fn ∉ seen := by
  induction bases with
  | nil => intro seen; simp [assignFilenames]
  | cons base rest ih =>
    intro seen
    have hfree := (resolveCollision_spec seen base).2.1
    have h2 := ih (resolveCollision seen base :: seen)
    refine ⟨?_, ?_⟩
    · rw [assignFilenames, List.nodup_cons]
      refine ⟨fun hmem => (h2.2 _ hmem) (List.mem_cons_self _ _), h2.1⟩
    · intro fn hmem
      rw [assignFilenames, List.mem_cons] at hmem
      rcases hmem with rfl | hmem
      · exact hfree
      · intro hc
        exact (h2.2 fn hmem) (List.mem_cons_of_mem _ hc)

/-- C3 (amended): within one note's resource set all assigned filenames are
pairwise distinct; a resource keeps its computed base name unmodified exactly
when that name has not yet been claimed by an earlier resource of the same
note (so with two resources computing the same base name, the first-seen one
keeps it), and a resource whose base name is already claimed receives the
candidate name with the lowest counter n that is still unclaimed, the counter
being inserted before the extension. -/
theorem resource_filename_collision_resolution (bases : List String) :
    (assignFilenames [] bases).Nodup ∧
    (∀ seen base, base ∉ seen → resolveCollision seen base = base) ∧
    (∀ seen base, base ∈ seen → resolveCollision seen base ∉ seen ∧
      ∃ k, 1 ≤ k ∧
        resolveCollision seen base =
          collisionCandidate (splitext base).1 (splitext base).2 k ∧
        ∀ j, 1 ≤ j → j < k →
          collisionCandidate (splitext base).1 (splitext base).2 j ∈ seen) :=
  ⟨(assignFilenames_spec bases []).1,
   fun seen base => (resolveCollision_spec seen base).1,
   fun seen base hmem =>
     ⟨(resolveCollision_spec seen base).2.1, (resolveCollision_spec seen base).2.2 hmem⟩⟩

/-- C3 witness: two resources both computing a.png get distinct names; the
first keeps a.png unmodified and the second becomes the counter-1 candidate
a_1.png. -/
theorem resource_filename_collision_resolution_witness :
    resolveCollision [] "a.png" = "a.png" ∧
    resolveCollision ["a.png"] "a.png" ∉ ["a.png"] ∧
    assignFilenames [] ["a.png", "a.png"] = ["a.png", "a_1.png"] :=
  ⟨(resource_filename_collision_resolution []).2.1 [] "a.png" (by decide),
   ((resource_filename_collision_resolution []).2.2 ["a.png"] "a.png" (by decide)).1,
   by decide⟩

/-- C3 counterexample: with resources computing bases a.png, a.png, a_1.png,
a_1.png, the collision renaming of the second a.png claims a_1.png first, so
the first-seen resource computing the base a_1.png (position 2) does not keep
its unmodified name, contradicting the claim that the first-seen resource of
a shared base always keeps it. -/
theorem first_seen_keeps_name_cex :
    assignFilenames [] ["a.png", "a.png", "a_1.png", "a_1.png"] =
      ["a.png", "a_1.png", "a_1_1.png", "a_1_2.png"] ∧
    (assignFilenames [] ["a.png", "a.png", "a_1.png", "a_1.png"]).getD 2 "" ≠ "a_1.png" := by
  decide

/-! ### Streaming parser (src/parser.py) -/

/-- Resource XML element as seen by _extract_resource_data.  For each child
the outer Option is presence of the child element and the inner Option the
text, which lxml reports as None for an empty element.  The file name is the
collapsed result of looking up resource-attributes and then file-name. -/
structure ResElem where
  dataChild : Option (Option String)
  mimeChild : Option (Option String)
  fileName : Option String
  recoChild : Option (Option String)
deriving DecidableEq, Repr

/-- Note XML element as seen by _extract_note_data: findtext results for the
scalar children, the tag texts in document order, the resource elements, and
the note-attributes children when that element is present. -/
structure NoteElem where
  titleText : Option String
  contentText : Option String
  createdText : Option String
  updatedText : Option String
  tagTexts : List (Option String)
  resources : List ResElem
  attrsChild : Option (Option String × Option String × Option String)
deriving DecidableEq, Repr

/-- Resource record produced by _extract_resource_data. -/
structure ResRecord where
  dataB64 : String
  mime : Option String
  filename : Option String
  recognition : Option String
deriving DecidableEq, Repr

/-- Note record produced by _extract_note_data.  The datetime and float
types are abstract parameters DT and Flt because dateutil.parser.parse and
float() are external libraries; only their observable success or failure
matters to the claims. -/
structure NoteRecord (DT Flt : Type) where
  title : Option String
  content : Option String
  created : Option DT
  updated : Option DT
  tags : List (Option String)
  resources : List ResRecord
  sourceUrl : Option String
  locLat : Option Flt
  locLon : Option Flt

/-- External parsing functions used by the parser: dateutil.parser.parse and
float(), each returning none where the Python call raises. -/
structure ParserEnv (DT Flt : Type) where
  parseDate : String → Option DT
  parseFloat : String → Option Flt

/-- Embedding of NoteParser._parse_date: an absent or empty date string gives
none, otherwise the dateutil call with all exceptions mapped to none. -/
def parseDateText {DT Flt : Type} (env : ParserEnv DT Flt) : Option String → Option DT
  | none => none
  | some s => if s = "" then none else env.parseDate s

/-- Embedding of NoteParser._extract_resource_data: a resource whose data
child is absent, or whose data text is absent or empty, yields none and is
dropped by the caller; otherwise the payload is the stripped data text, the
mime type defaults to application/octet-stream only when the mime element is
absent entirely, and recognition text is kept (stripped) only when truthy. -/
def extractResourceData (r : ResElem) : Option ResRecord :=
  match r.dataChild with
  | none => none
  | some txt? =>
    match txt? with
    | none => none
    | some t =>
      if t = "" then none
      else
        some
          { dataB64 := pyStrip t
            mime := match r.mimeChild with
                    | some mt => mt
                    | none => some "application/octet-stream"
            filename := r.fileName
            recognition := match r.recoChild with
                           | some (some rt) => if rt = "" then none else some (pyStrip rt)
                           | _ => none }

/-- Embedding of the note-attributes handling in _extract_note_data: the
source url is read when the element exists and the location floats are parsed
one after the other, each float() failure caught, so a failing longitude can
leave only the latitude set. -/
def extractAttrs {DT Flt : Type} (env : ParserEnv DT Flt)
    (attrs : Option (Option String × Option String × Option String)) :
    Option String × Option Flt × Option Flt :=
  match attrs with
  | none => (none, none, none)
  | some (srcUrl, lat?, lon?) =>
    match lat?, lon? with
    | some lat, some lon =>
      if lat = "" || lon = "" then (srcUrl, none, none)
      else
        match env.parseFloat lat with
        | none => (srcUrl, none, none)
        | some v =>
          match env.parseFloat lon with
          | none => (srcUrl, some v, none)
          | some w => (srcUrl, some v, some w)
    | _, _ => (srcUrl, none, none)

/-- Embedding of NoteParser._extract_note_data. -/
def extractNoteData {DT Flt : Type} (env : ParserEnv DT Flt) (n : NoteElem) :
    NoteRecord DT Flt :=
  let attrs := extractAttrs env n.attrsChild
  { title := n.titleText
    content := n.contentText
    created := parseDateText env n.createdText
    updated := parseDateText env n.updatedText
    tags := n.tagTexts
    resources := n.resources.filterMap extractResourceData
    sourceUrl := attrs.1
    locLat := attrs.2.1
    locLon := attrs.2.2 }

/-- Archive as consumed by the streaming parser: the note elements whose end
events fire before any parse failure, and the terminal error, if the file is
malformed, raised only after all of those notes have been yielded. -/
structure Archive where
  notes : List NoteElem
  parseError : Option String
deriving DecidableEq, Repr

/-- Embedding of NoteParser.parse: the generator yields one record per note
element in order and then, on a malformed file, the terminal error. -/
def parseNotesLoop {DT Flt : Type} (env : ParserEnv DT Flt) :
    List NoteElem → List (NoteRecord DT Flt)
  | [] => []
  | n :: rest => extractNoteData env n :: parseNotesLoop env rest

/-- Full result of iterating NoteParser.parse: the yielded records and the
terminal parse error, if any. -/
def parseArchive {DT Flt : Type} (env : ParserEnv DT Flt) (a : Archive) :
    List (NoteRecord DT Flt) × Option String :=
  (parseNotesLoop env a.notes, a.parseError)

/-- Embedding of enex2all.count_notes_in_enex: the recovering fast scan
counts one per note end event without touching resource payloads; on a
malformed file it stops at the failure point and returns the partial count. -/
def countNotesLoop : List NoteElem → Nat
  | [] => 0
  | _ :: rest => countNotesLoop rest + 1

/-- Fast-scan note-boundary count of an archive. -/
def countNotesInEnex (a : Archive) : Nat :=
  countNotesLoop a.notes

theorem parseNotesLoop_length {DT Flt : Type} (env : ParserEnv DT Flt)
    (l : List NoteElem) : (parseNotesLoop env l).length = countNotesLoop l := by
  induction l with
  | nil => rfl
  | cons n rest ih => simp [parseNotesLoop, countNotesLoop, ih]

/-- C6: for every valid (well-formed) archive, the number of note records
yielded by the streaming parser equals the note-boundary count returned by
the fast-count scan of the same archive. -/
theorem parse_count_agreement {DT Flt : Type} (env : ParserEnv DT Flt) (a : Archive)
    (_hvalid : a.parseError = none) :
    (parseArchive env a).1.length = countNotesInEnex a :=
  parseNotesLoop_length env a.notes

/-- C6 witness: a concrete well-formed archive with two notes has two yielded
records and a fast-scan count of two. -/
theorem parse_count_agreement_witness :
    (parseArchive ((⟨fun _ => none, fun _ => none⟩ : ParserEnv Nat Nat))
        ⟨[⟨some "A", none, none, none, [], [], none⟩,
          ⟨some "B", none, none, none, [], [], none⟩], none⟩).1.length =
      countNotesInEnex
        ⟨[⟨some "A", none, none, none, [], [], none⟩,
          ⟨some "B", none, none, none, [], [], none⟩], none⟩ :=
  parse_count_agreement ⟨fun _ => none, fun _ => none⟩ _ rfl

/-- C9 (amended): every resource kept in a yielded note record comes from a
resource element whose data child is present with text that is non-empty
before stripping, and its stored payload is the stripped text — which can
itself be empty when the text was whitespace-only; a resource element whose
data child is absent, or has absent or empty text, is silently dropped from
the record's resource list without an error. -/
theorem extractResourceData_eq_some (e : ResElem) (r : ResRecord)
    (h : extractResourceData e = some r) :
    ∃ t, t ≠ "" ∧ e.dataChild = some (some t) ∧ r.dataB64 = pyStrip t := by
  rcases e with ⟨dc, mc, fn, rc⟩
  match dc with
  | none => simp [extractResourceData] at h
  | some none => simp [extractResourceData] at h
  | some (some t) =>
    by_cases ht : t = ""
    · subst ht
      simp [extractResourceData] at h
    · refine ⟨t, ht, rfl, ?_⟩
      simp only [extractResourceData, if_neg ht, Option.some.injEq] at h
      rw [← h]

theorem parser_resource_payload {DT Flt : Type} (env : ParserEnv DT Flt) (n : NoteElem) :
    (∀ r ∈ (extractNoteData env n).resources, ∃ e ∈ n.resources, ∃ t, t ≠ "" ∧
      e.dataChild = some (some t) ∧ r.dataB64 = pyStrip t) ∧
    (∀ e ∈ n.resources,
      e.dataChild = none ∨ e.dataChild = some none ∨ e.dataChild = some (some "") →
        extractResourceData e = none) := by
  constructor
  · intro r hr
    have hr2 : r ∈ n.resources.filterMap extractResourceData := hr
    rcases List.mem_filterMap.mp hr2 with ⟨e, he, hex⟩
    exact ⟨e, he, extractResourceData_eq_some e r hex⟩
  · intro e _ hcase
    rcases e with ⟨dc, mc, fn, rc⟩
    rcases hcase with h | h | h <;> (simp only at h; subst h; simp [extractResourceData])

/-- C9 witness: a note with three resource elements — data child absent,
data text empty, and data text x — yields exactly the record for x with the
stripped payload, the first two being dropped without error. -/
theorem parser_resource_payload_witness :
    ∃ e ∈ [ResElem.mk none none none none, ResElem.mk (some none) none none none,
           ResElem.mk (some (some " x ")) none none none], ∃ t, t ≠ "" ∧
      e.dataChild = some (some t) ∧
      (ResRecord.mk "x" (some "application/octet-stream") none none).dataB64 = pyStrip t := by
  refine (parser_resource_payload ((⟨fun _ => none, fun _ => none⟩ : ParserEnv Nat Nat))
    ⟨some "A", none, none, none, [],
      [ResElem.mk none none none none, ResElem.mk (some none) none none none,
       ResElem.mk (some (some " x ")) none none none], none⟩).1
    (ResRecord.mk "x" (some "application/octet-stream") none none) ?_
  decide

/-- C9 counterexample: a resource element whose data child holds whitespace-
only text is truthy in Python, so it is kept, and its stored payload is the
empty string after stripping — the yielded record then contains a resource
with an empty base64 payload, contradicting the claim. -/
theorem parser_nonempty_payload_cex :
    ((extractNoteData ((⟨fun _ => none, fun _ => none⟩ : ParserEnv Nat Nat))
        ⟨some "A", none, none, none, [],
          [ResElem.mk (some (some " ")) none none none], none⟩).resources.map
      ResRecord.dataB64) = [""] := by
  decide

/-! ### Per-archive orchestration and batch loop (enex2all.process_enex, main) -/

/-- Outcome of one note inside process_enex: the per-note machinery (resume
check, retry filter, timeout, conversion and rendering) is abstracted into a
step function producing one of these; a failure carries the reason string
recorded in the journal. -/
inductive Outcome where
  | converted
  | skipped
  | failed (reason : String)
deriving DecidableEq, Repr

/-- Title literal of the synthetic journal entry that process_enex records
when the note generator raises mid-archive. -/
def parseErrorTitle : String := "(PARSE ERROR - REMAINING NOTES SKIPPED)"

/-- Per-note accumulation of the process_enex loop over the yielded notes:
counts of converted, skipped and errored notes, plus the failure-log entries
appended for failed notes, in order. -/
def processNotes (stem : String) (step : NoteElem → Outcome) :
    List NoteElem → (Nat × Nat × Nat) × List JEntry
  | [] => ((0, 0, 0), [])
  | n :: rest =>
    let r := processNotes stem step rest
    match step n with
    | .converted => ((r.1.1 + 1, r.1.2.1, r.1.2.2), r.2)
    | .skipped => ((r.1.1, r.1.2.1 + 1, r.1.2.2), r.2)
    | .failed reason => ((r.1.1, r.1.2.1, r.1.2.2 + 1), JEntry.dict stem n.titleText reason :: r.2)

/-- Embedding of process_enex for one archive: the note loop runs over every
yielded note; when the generator then raises, the exception is caught at the
archive boundary and exactly one synthetic entry for the unrecoverable
remainder is appended to this run's failure log; finally, if the log is
nonempty it is merged into the existing journal (read-merge-write with key
dedup).  The function returns the counts, this run's failure log, and the
journal contents after the write. -/
def processEnexArchive (stem : String) (step : NoteElem → Outcome)
    (existing : List JEntry) (a : Archive) :
    (Nat × Nat × Nat) × List JEntry × List JEntry :=
  let r := processNotes stem step a.notes
  let log := r.2 ++ (match a.parseError with
    | some err => [JEntry.dict stem (some parseErrorTitle) err]
    | none => [])
  (r.1, log, if log = [] then existing else journalWrite existing log)

/-- Embedding of the archive loop in main(): archives are processed one after
the other, each merging its failures into the journal left by its
predecessors; no exception escapes process_enex, so every archive in the
list is reached. -/
def runBatch (step : NoteElem → Outcome) (journal : List JEntry) :
    List (String × Archive) → List ((Nat × Nat × Nat) × List JEntry) × List JEntry
  | [] => ([], journal)
  | (stem, a) :: rest =>
    let r := processEnexArchive stem step journal a
    let rr := runBatch step r.2.2 rest
    ((r.1, r.2.1) :: rr.1, rr.2)

theorem processNotes_counts (stem : String) (step : NoteElem → Outcome)
    (notes : List NoteElem) :
    (processNotes stem step notes).1.1 + (processNotes stem step notes).1.2.1 +
      (processNotes stem step notes).1.2.2 = notes.length := by
  induction notes with
  | nil => rfl
  | cons n rest ih =>
    rcases hs : step n with _ | _ | reason <;>
      simp [processNotes, hs] <;> omega

/-- C5: on a malformed archive the parser yields every note parsed before the
failure point and then raises; process_enex produces per-note outcomes for
exactly those yielded notes (their outcome counts sum to the yielded count,
with no recovery of further notes attempted), appends exactly one synthetic
failure-log entry standing for the unrecoverable remainder of the archive,
merges the log into the journal, and the batch loop still processes every
remaining archive. -/
theorem malformed_archive_single_synthetic_entry (stem : String)
    (step : NoteElem → Outcome) (journal : List JEntry) (a : Archive) (err : String)
    (herr : a.parseError = some err) (rest : List (String × Archive)) :
    (parseArchive ((⟨fun _ => none, fun _ => none⟩ : ParserEnv Unit Unit)) a).2 = some err ∧
    ((processEnexArchive stem step journal a).1.1 +
        (processEnexArchive stem step journal a).1.2.1 +
        (processEnexArchive stem step journal a).1.2.2 = a.notes.length) ∧
    ((processEnexArchive stem step journal a).2.1 =
      (processNotes stem step a.notes).2 ++ [JEntry.dict stem (some parseErrorTitle) err]) ∧
    ((processEnexArchive stem step journal a).2.2 =
      journalWrite journal ((processEnexArchive stem step journal a).2.1)) ∧
    (runBatch step journal ((stem, a) :: rest)).1 =
      ((processEnexArchive stem step journal a).1,
        (processEnexArchive stem step journal a).2.1) ::
        (runBatch step (processEnexArchive stem step journal a).2.2 rest).1 := by
  have hlog : (processEnexArchive stem step journal a).2.1 =
      (processNotes stem step a.notes).2 ++ [JEntry.dict stem (some parseErrorTitle) err] := by
    simp [processEnexArchive, herr]
  have hne : (processEnexArchive stem step journal a).2.1 ≠ [] := by
    rw [hlog]
    simp
  refine ⟨by simp [parseArchive, herr], processNotes_counts stem step a.notes, hlog, ?_, ?_⟩
  · show (processEnexArchive stem step journal a).2.2 = _
    unfold processEnexArchive at hne ⊢
    simp only [herr] at hne ⊢
    rw [if_neg (by simp)]
  · simp [runBatch]

/-- C5 witness: a concrete archive that yields one note titled A, with the
step converting it, and then fails with reason broken xml appends exactly the
one synthetic entry and leaves the next (empty, well-formed) archive
processed with one entry in the inherited journal. -/
theorem malformed_archive_single_synthetic_entry_witness :
    ((processEnexArchive "nb" (fun _ => Outcome.converted) []
        ⟨[⟨some "A", none, none, none, [], [], none⟩], some "broken xml"⟩).2.1 =
      [JEntry.dict "nb" (some parseErrorTitle) "broken xml"]) ∧
    (runBatch (fun _ => Outcome.converted) []
        [("nb", ⟨[⟨some "A", none, none, none, [], [], none⟩], some "broken xml"⟩),
         ("nb2", (⟨[], none⟩ : Archive))]).1 =
      [((1, 0, 0), [JEntry.dict "nb" (some parseErrorTitle) "broken xml"]),
       ((0, 0, 0), [])] := by
  have h := malformed_archive_single_synthetic_entry "nb" (fun _ => Outcome.converted) []
    ⟨[⟨some "A", none, none, none, [], [], none⟩], some "broken xml"⟩ "broken xml" rfl
    [("nb2", ⟨[], none⟩)]
  refine ⟨h.2.2.1.trans (by decide), ?_⟩
  rw [h.2.2.2.2]
  decide

/-! ### Resume check and reruns (enex2all.process_single_note,
PdfFormatter._copy_to_pdf_folder) -/

/-- Python str.startswith on whole strings. -/
def strStartsWith (s pre : String) : Bool :=
  pre.data.isPrefixOf s.data

/-- Note identity as the resume logic sees it: the title, the resume date
string (created.strftime(date_format), or NoDate when created is missing)
and the copy date prefix (str(created) up to the first space, or empty when
created is missing).  Both date strings are precomputed here because datetime
formatting is an external library; the claims only need whether they agree. -/
structure RunNote where
  title : String
  dateResume : String
  dateCopy : String
deriving DecidableEq, Repr

/-- State observed by the resume logic.  PDF artifact folders are keyed by
the directory prefix under the output root that contains the _PDF folder:
_copy_to_pdf_folder derives its destination from the note's target directory
as target_dir.parent.parent/_PDF/<stem>, which is
outputRoot/<relPath>/_PDF/<stem> for an archive found at <relPath> under the
input root (the empty prefix for an archive at the top level), while the
resume check of process_single_note always reads
outputRoot/_PDF/<stem>, the entry with the empty prefix.  pdfDirs lists the
prefixes under which _PDF/<stem> exists, pdfFiles the (prefix, pdf filename)
pairs present there, and renderCalls counts conversions performed (a skipped
note performs none). -/
structure RunState where
  pdfDirs : List String
  pdfFiles : List (String × String)
  renderCalls : Nat
deriving DecidableEq, Repr

/-- Embedding of the resume check of process_single_note: when
outputRoot/_PDF/<stem> (the empty-prefix folder) exists, look there for the
plain sanitized-title pdf or the date-prefixed variant; a hit means the note
is skipped before any parsing or resource work. -/
def resumeHit (ch : String) (st : RunState) (n : RunNote) : Bool :=
  decide ("" ∈ st.pdfDirs) &&
    (decide (("", convSanitize ch n.title ++ ".pdf") ∈ st.pdfFiles) ||
     decide (("", n.dateResume ++ "_" ++ convSanitize ch n.title ++ ".pdf") ∈ st.pdfFiles))

/-- Embedding of the pdf artifact name chosen by _copy_to_pdf_folder: the
PdfFormatter-sanitized title with .pdf, date-prefixed when a copy date exists
and the name does not already start with it. -/
def pdfCopyName (ch : String) (n : RunNote) : String :=
  let filename := pdfSanitize ch n.title ++ ".pdf"
  if n.dateCopy ≠ "" && !(strStartsWith filename n.dateCopy) then
    n.dateCopy ++ "_" ++ filename
  else filename

/-- Embedding of one note's pass through process_single_note for an archive
whose directory lies at relPath under the input root: a resume hit skips the
note with no state change and no render call; otherwise the note is
converted, one render call is made and, when the pdf format is selected, the
generated pdf is copied (mkdir parents exist_ok, then copy) into the _PDF
folder at that same relPath. -/
def stepRunNote (pdfSelected : Bool) (relPath ch : String) (st : RunState)
    (n : RunNote) : Outcome × RunState :=
  if resumeHit ch st n then (Outcome.skipped, st)
  else
    (Outcome.converted,
      if pdfSelected then
        { pdfDirs := relPath :: st.pdfDirs,
          pdfFiles := (relPath, pdfCopyName ch n) :: st.pdfFiles,
          renderCalls := st.renderCalls + 1 }
      else { st with renderCalls := st.renderCalls + 1 })

/-- Sequential pass of process_enex over the notes of one archive, threading
the output state. -/
def runPass (pdfSelected : Bool) (relPath ch : String) :
    RunState → List RunNote → List Outcome × RunState
  | st, [] => ([], st)
  | st, n :: rest =>
    let r := stepRunNote pdfSelected relPath ch st n
    let rr := runPass pdfSelected relPath ch r.2 rest
    (r.1 :: rr.1, rr.2)

/-- Growth order on resume states: pdf folders never disappear and pdf files
are never removed. -/
def stateLe (st st2 : RunState) : Prop :=
  (∀ p ∈ st.pdfDirs, p ∈ st2.pdfDirs) ∧ ∀ f ∈ st.pdfFiles, f ∈ st2.pdfFiles

theorem stateLe_refl (st : RunState) : stateLe st st :=
  ⟨fun _ hp => hp, fun _ hf => hf⟩

theorem stateLe_trans {st1 st2 st3 : RunState} (h12 : stateLe st1 st2)
    (h23 : stateLe st2 st3) : stateLe st1 st3 :=
  ⟨fun p hp => h23.1 p (h12.1 p hp), fun f hf => h23.2 f (h12.2 f hf)⟩

theorem stepRunNote_stateLe (pdfSel : Bool) (relPath ch : String) (st : RunState)
    (n : RunNote) : stateLe st (stepRunNote pdfSel relPath ch st n).2 := by
  unfold stepRunNote
  split
  · exact stateLe_refl st
  · cases pdfSel
    · exact ⟨fun _ hp => hp, fun _ hf => hf⟩
    · exact ⟨fun _ hp => List.mem_cons_of_mem _ hp, fun _ hf => List.mem_cons_of_mem _ hf⟩

theorem runPass_stateLe (pdfSel : Bool) (relPath ch : String) (notes : List RunNote) :
    ∀ st, stateLe st (runPass pdfSel relPath ch st notes).2 := by
  induction notes with
  | nil => intro st; exact stateLe_refl st
  | cons n rest ih =>
    intro st
    exact stateLe_trans (stepRunNote_stateLe pdfSel relPath ch st n)
      (ih (stepRunNote pdfSel relPath ch st n).2)

theorem strAppend_assoc (a b c : String) : a ++ b ++ c = a ++ (b ++ c) :=
  congrArg String.mk (List.append_assoc a.data b.data c.data)

theorem resumeHit_mono (ch : String) {st st2 : RunState} (n : RunNote)
    (hle : stateLe st st2) (hhit : resumeHit ch st n = true) :
    resumeHit ch st2 n = true := by
  unfold resumeHit at hhit ⊢
  simp only [Bool.and_eq_true, Bool.or_eq_true, decide_eq_true_eq] at hhit ⊢
  exact ⟨hle.1 "" hhit.1, hhit.2.imp (hle.2 _) (hle.2 _)⟩

theorem sanitize_agree (ch title : String)
    (h : (pdfSanitize ch title).length ≤ 100) :
    convSanitize ch title = pdfSanitize ch title := by
  simp only [convSanitize, pdfSanitize] at h ⊢
  rw [if_neg (by omega)]

theorem pdfCopyName_is_resume_candidate (ch : String) (n : RunNote)
    (hdate : n.dateCopy = "" ∨ n.dateResume = n.dateCopy)
    (hlen : (pdfSanitize ch n.title).length ≤ 100) :
    pdfCopyName ch n = convSanitize ch n.title ++ ".pdf" ∨
    pdfCopyName ch n = n.dateResume ++ "_" ++ convSanitize ch n.title ++ ".pdf" := by
  unfold pdfCopyName
  rw [sanitize_agree ch n.title hlen]
  rcases hdate with hd | hd
  · left
    rw [if_neg (by simp [hd])]
  · by_cases hsw : strStartsWith (pdfSanitize ch n.title ++ ".pdf") n.dateCopy
    · left
      rw [if_neg (by simp [hsw])]
    · by_cases hempty : n.dateCopy = ""
      · left
        rw [if_neg (by simp [hempty])]
      · right
        rw [if_pos (by simp [hempty, hsw]), hd]
        exact (strAppend_assoc (n.dateCopy ++ "_") (pdfSanitize ch n.title) ".pdf").symm

theorem converted_note_resumes (ch : String) (st : RunState) (n : RunNote)
    (hdate : n.dateCopy = "" ∨ n.dateResume = n.dateCopy)
    (hlen : (pdfSanitize ch n.title).length ≤ 100) :
    resumeHit ch (stepRunNote true "" ch st n).2 n = true := by
  by_cases hhit : resumeHit ch st n = true
  · have hstep : (stepRunNote true "" ch st n).2 = st := by
      unfold stepRunNote
      rw [if_pos hhit]
    rw [hstep]
    exact hhit
  · have hstep : (stepRunNote true "" ch st n).2 =
        ⟨"" :: st.pdfDirs, ("", pdfCopyName ch n) :: st.pdfFiles, st.renderCalls + 1⟩ := by
      unfold stepRunNote
      rw [if_neg hhit]
      rfl
    rw [hstep]
    unfold resumeHit
    simp only [Bool.and_eq_true, Bool.or_eq_true, decide_eq_true_eq]
    refine ⟨List.mem_cons_self _ _, ?_⟩
    rcases pdfCopyName_is_resume_candidate ch n hdate hlen with hc | hc
    · exact Or.inl (by rw [← hc]; exact List.mem_cons_self _ _)
    · exact Or.inr (by rw [← hc]; exact List.mem_cons_self _ _)

theorem runPass_resumes_all (ch : String) (notes : List RunNote)
    (hdate : ∀ n ∈ notes, n.dateCopy = "" ∨ n.dateResume = n.dateCopy)
    (hlen : ∀ n ∈ notes, (pdfSanitize ch n.title).length ≤ 100) :
    ∀ st, ∀ n ∈ notes, resumeHit ch (runPass true "" ch st notes).2 n = true := by
  induction notes with
  | nil => intro st n hn; exact absurd hn (List.not_mem_nil n)
  | cons m rest ih =>
    intro st n hn
    rcases List.mem_cons.mp hn with rfl | hn
    · have h1 := converted_note_resumes ch st n (hdate n (List.mem_cons_self _ _))
        (hlen n (List.mem_cons_self _ _))
      exact resumeHit_mono ch n (runPass_stateLe true "" ch rest _) h1
    · exact ih (fun k hk => hdate k (List.mem_cons_of_mem _ hk))
        (fun k hk => hlen k (List.mem_cons_of_mem _ hk)) _ n hn

theorem runPass_all_skip (pdfSel : Bool) (relPath ch : String) (notes : List RunNote)
    (st : RunState) (hall : ∀ n ∈ notes, resumeHit ch st n = true) :
    runPass pdfSel relPath ch st notes = (notes.map (fun _ => Outcome.skipped), st) := by
  induction notes with
  | nil => rfl
  | cons n rest ih =>
    have hn := hall n (List.mem_cons_self _ _)
    have hstep : stepRunNote pdfSel relPath ch st n = (Outcome.skipped, st) := by
      unfold stepRunNote
      rw [if_pos hn]
    rw [runPass, hstep]
    rw [ih (fun k hk => hall k (List.mem_cons_of_mem _ hk))]
    rfl

/-- C2 (amended): when the pdf output format is selected, the archive lies
directly at the top level of the input root (empty relative path, so the
_PDF folder the copy writes is the one the resume check reads), and, for
every note, the resume date string agrees with the copy date prefix (as
under the default date format) and the sanitized title is within the
100-character cap, running the batch a second time over unchanged input
yields only Skipped outcomes — zero newly Converted notes — and an unchanged
state: in particular no render call is made in the second run, and the
model's skip branch returns before any resource extraction or OCR, exactly
as the code's resume check does. -/
theorem rerun_is_all_skipped (ch : String) (st : RunState) (notes : List RunNote)
    (hdate : ∀ n ∈ notes, n.dateCopy = "" ∨ n.dateResume = n.dateCopy)
    (hlen : ∀ n ∈ notes, (pdfSanitize ch n.title).length ≤ 100) :
    runPass true "" ch (runPass true "" ch st notes).2 notes =
      (notes.map (fun _ => Outcome.skipped), (runPass true "" ch st notes).2) :=
  runPass_all_skip true "" ch notes (runPass true "" ch st notes).2
    (runPass_resumes_all ch notes hdate hlen st)

/-- C2 witness: one note titled A dated 2023-05-01 in a top-level archive,
converted by a first run from the empty state, is skipped by the second run,
which changes nothing. -/
theorem rerun_is_all_skipped_witness :
    runPass true "" "_"
        (runPass true "" "_" ⟨[], [], 0⟩ [⟨"A", "2023-05-01", "2023-05-01"⟩]).2
        [⟨"A", "2023-05-01", "2023-05-01"⟩] =
      ([(⟨"A", "2023-05-01", "2023-05-01"⟩ : RunNote)].map (fun _ => Outcome.skipped),
        (runPass true "" "_" ⟨[], [], 0⟩ [⟨"A", "2023-05-01", "2023-05-01"⟩]).2) :=
  rerun_is_all_skipped "_" ⟨[], [], 0⟩ [⟨"A", "2023-05-01", "2023-05-01"⟩]
    (by decide) (by decide)

/-- C2 counterexample, two independent failures of the claim as stated.
Without the pdf format (formats may be any non-empty subset, e.g. html
only) the first run leaves no _PDF artifact and the second run converts the
note again.  And even with pdf selected, for an archive found in a
subdirectory under recursive discovery the copy lands in
outputRoot/<subdir>/_PDF/<stem> while the resume check reads
outputRoot/_PDF/<stem>, so the second run still re-Converts the note and
makes a second render call. -/
theorem rerun_reconverts_cex :
    (runPass false "" "_"
        (runPass false "" "_" ⟨[], [], 0⟩ [⟨"A", "2023-05-01", "2023-05-01"⟩]).2
        [⟨"A", "2023-05-01", "2023-05-01"⟩]).1 = [Outcome.converted] ∧
    (runPass true "sub" "_"
        (runPass true "sub" "_" ⟨[], [], 0⟩ [⟨"A", "2023-05-01", "2023-05-01"⟩]).2
        [⟨"A", "2023-05-01", "2023-05-01"⟩]).1 = [Outcome.converted] ∧
    (runPass true "sub" "_"
        (runPass true "sub" "_" ⟨[], [], 0⟩ [⟨"A", "2023-05-01", "2023-05-01"⟩]).2
        [⟨"A", "2023-05-01", "2023-05-01"⟩]).2.renderCalls = 2 := by
  decide

/-! ### OCR text joining and the CJK spacing fix (converter._perform_ocr) -/

/-- Character class of the spacing-fix regex in _perform_ocr: the ranges
U+3000 to U+30FF and U+4E00 to U+9FFF. -/
def isCjkClassChar (c : Char) : Bool :=
  (0x3000 ≤ c.toNat && c.toNat ≤ 0x30ff) || (0x4e00 ≤ c.toNat && c.toNat ≤ 0x9fff)

/-- Length of the leading whitespace run, as the greedy backslash-s-plus
would first consume it. -/
def spaceRunLen : List Char → Nat
  | [] => 0
  | c :: rest => if isPySpaceChar c then spaceRunLen rest + 1 else 0

/-- Backtracking of the greedy whitespace match: starting from m consumed
whitespace characters and giving characters back one at a time, the largest
k between 1 and m such that the character at index k is in the CJK class
(for k below the run length that character is whitespace, so only the
ideographic space can qualify). -/
def backtrackK (rest : List Char) : Nat → Option Nat
  | 0 => none
  | k + 1 =>
    match rest.get? (k + 1) with
    | some c2 => if isCjkClassChar c2 then some (k + 1) else backtrackK rest k
    | none => backtrackK rest k

/-- Embedding of re.sub with the pattern CJK, one-or-more whitespace, CJK and
the replacement group1-group2: scan left to right; at a CJK character try to
match greedily with backtracking; on a match emit the two captured characters
and resume scanning after the match; otherwise move one character ahead.
Matches are non-overlapping, exactly as in Python.  Fuel keeps the recursion
structural; the wrapper passes the string length, which suffices because
every step consumes at least one character. -/
def cjkSubAux : Nat → List Char → List Char
  | 0, l => l
  | _ + 1, [] => []
  | fuel + 1, c :: rest =>
    if isCjkClassChar c then
      match backtrackK rest (spaceRunLen rest) with
      | some k =>
        match rest.get? k with
        | some c2 => c :: c2 :: cjkSubAux fuel (rest.drop (k + 1))
        | none => c :: cjkSubAux fuel rest
      | none => c :: cjkSubAux fuel rest
    else c :: cjkSubAux fuel rest

/-- Spacing fix applied to the joined OCR text. -/
def cjkSpaceFix (s : String) : String :=
  ⟨cjkSubAux s.data.length s.data⟩

/-- C8: evaluating the embedded join-then-collapse on the three recognized
words A I U (hiragana) shows the failure: the first match consumes the second
character, scanning resumes after it, and the whitespace between the second
and third CJK characters survives — the output is not the fully collapsed
text the claim and the code comment describe. -/
theorem cjk_space_fix_leaves_gap :
    cjkSpaceFix (String.intercalate " " ["あ", "い", "う"]) = "あい う" ∧
    cjkSpaceFix (String.intercalate " " ["あ", "い", "う"]) ≠ "あいう" := by
  decide

/-! ### Content transformation (converter._create_intermediate_html) -/

/-- Intermediate markup node: text or an element with attributes in document
order and children. -/
inductive HNode where
  | text (s : String)
  | elem (tag : String) (attrs : List (String × String)) (children : List HNode)

/-- BeautifulSoup attribute lookup tag.get(key): first matching attribute. -/
def attrGet (attrs : List (String × String)) (k : String) : Option String :=
  (attrs.find? (fun a => a.1 = k)).map (fun a => a.2)

/-- Word-level OCR result from pytesseract image_to_data, after the per-word
filtering of _perform_ocr: stripped text, bounding box, line, block and
paragraph indices, and confidence. -/
structure OcrWord where
  text : String
  left : Int
  top : Int
  width : Int
  height : Int
  lineNum : Int
  blockNum : Int
  parNum : Int
  conf : Int
deriving DecidableEq, Repr

/-- Position sidecar payload built by _perform_ocr: the dimensions of the
recognized (preprocessed) image and the kept words. -/
structure OcrPos where
  imageWidth : Nat
  imageHeight : Nat
  words : List OcrWord
deriving DecidableEq, Repr

/-- Processed-resource map entry (converter._process_resources_parallel):
assigned filename, original base64 payload, mime type, recognition text and
word-position data; only the filename is relevant to content transformation. -/
structure ResInfo where
  filename : String
  dataB64 : String
  mime : String
  recognition : Option String
  ocrPos : Option OcrPos
deriving DecidableEq, Repr

/-- Concatenated text of a node, as BeautifulSoup get_text() used on the
en-crypt cipher payload. -/
def textContent : HNode → String
  | .text s => s
  | .elem _ _ children =>
    String.join (children.attach.map fun c => textContent c.1)
decreasing_by
  simp_wf
  have h1 := List.sizeOf_lt_of_mem c.2
  omega

/-- Embedding of _create_intermediate_html's element rewriting: an en-media
element whose hash attribute is a key of the resource map becomes an img
element (image mime), an object preview block with a textual fallback
download link (application/pdf) or a plain download link (any other mime),
always targeting note_contents/<assigned filename>; en-todo becomes a
checkbox input reflecting the checked state; en-crypt becomes a placeholder
container with the hint and cipher as data attributes and visible fallback
text; all other nodes are kept with their children rewritten.  Replacements
are not rescanned, matching find_all plus replace_with on a fixed node
list. -/
def transformNode (rm : List (String × ResInfo)) : HNode → HNode
  | .text s => .text s
  | .elem tag attrs children =>
    if tag = "en-media" then
      match attrGet attrs "hash" with
      | some h =>
        match List.lookup h rm with
        | some info =>
          let linkPath := "note_contents/" ++ info.filename
          let mime := (attrGet attrs "type").getD ""
          if strStartsWith mime "image/" then
            .elem "img" [("src", linkPath), ("alt", info.filename)] []
          else if mime = "application/pdf" then
            .elem "object"
              [("data", linkPath), ("type", "application/pdf"),
                ("width", "100%"), ("height", "600px")]
              [.elem "p" []
                [.text "PDF cannot be displayed. ",
                 .elem "a" [("href", linkPath)] [.text ("Download " ++ info.filename)]]]
          else
            .elem "a" [("href", linkPath)] [.text info.filename]
        | none =>
          .elem tag attrs (children.attach.map fun c => transformNode rm c.1)
      | none =>
        .elem tag attrs (children.attach.map fun c => transformNode rm c.1)
    else if tag = "en-todo" then
      if attrGet attrs "checked" = some "true" then
        .elem "input" [("type", "checkbox"), ("checked", "checked")] []
      else
        .elem "input" [("type", "checkbox")] []
    else if tag = "en-crypt" then
      .elem "div"
        [("class", "en-crypt-container"),
         ("data-hint", (attrGet attrs "hint").getD ""),
         ("data-cipher", textContent (.elem tag attrs children))]
        [.elem "span" [("class", "en-crypt-fallback")] [.text "**[Encrypted Content]**"]]
    else
      .elem tag attrs (children.attach.map fun c => transformNode rm c.1)
decreasing_by
  all_goals
    simp_wf
    have h1 := List.sizeOf_lt_of_mem c.2
    omega

/-- Depth-first search for the first element with the given tag, as
soup.find. -/
def findFirstElem (tag : String) : List HNode → Option (List HNode)
  | [] => none
  | .text _ :: rest => findFirstElem tag rest
  | .elem t _ children :: rest =>
    if t = tag then some children
    else
      match findFirstElem tag children with
      | some r => some r
      | none => findFirstElem tag rest

/-- Embedding of _create_intermediate_html: rewrite the whole document, then
return the children of the en-note root if present, else the whole rewritten
document. -/
def createIntermediateHtml (rm : List (String × ResInfo)) (doc : List HNode) : List HNode :=
  let t := doc.map (transformNode rm)
  match findFirstElem "en-note" t with
  | some children => children
  | none => t

/-- C7: an en-media element whose hash attribute is present in the resource
map is replaced according to its type attribute — an image mime becomes an
img element with the filename as alternate text, application/pdf becomes an
embeddable object preview whose fallback paragraph carries a textual download
link, and every other mime becomes a plain download link carrying the
filename — and in each of the three cases the link target (src, data and
fallback href, or href) is note_contents/<assigned filename>. -/
theorem media_reference_transformation (rm : List (String × ResInfo))
    (attrs : List (String × String)) (children : List HNode) (h mime : String)
    (info : ResInfo)
    (hhash : attrGet attrs "hash" = some h)
    (htype : attrGet attrs "type" = some mime)
    (hin : List.lookup h rm = some info) :
    transformNode rm (.elem "en-media" attrs children) =
      (if strStartsWith mime "image/" then
        HNode.elem "img"
          [("src", "note_contents/" ++ info.filename), ("alt", info.filename)] []
      else if mime = "application/pdf" then
        HNode.elem "object"
          [("data", "note_contents/" ++ info.filename), ("type", "application/pdf"),
            ("width", "100%"), ("height", "600px")]
          [.elem "p" []
            [.text "PDF cannot be displayed. ",
             .elem "a" [("href", "note_contents/" ++ info.filename)]
               [.text ("Download " ++ info.filename)]]]
      else
        HNode.elem "a" [("href", "note_contents/" ++ info.filename)]
          [.text info.filename]) := by
  unfold transformNode
  simp only [hhash, hin, htype, Option.getD_some, if_pos]

/-- C7 witness: a concrete en-media element with a pdf type attribute and a
mapped hash is rewritten to the object preview block with the fallback
download link under note_contents. -/
theorem media_reference_transformation_witness :
    transformNode [("h1", ⟨"doc.pdf", "ZGF0YQ==", "application/pdf", none, none⟩)]
        (.elem "en-media" [("hash", "h1"), ("type", "application/pdf")] []) =
      (if strStartsWith "application/pdf" "image/" then
        HNode.elem "img" [("src", "note_contents/" ++ "doc.pdf"), ("alt", "doc.pdf")] []
      else if "application/pdf" = "application/pdf" then
        HNode.elem "object"
          [("data", "note_contents/" ++ "doc.pdf"), ("type", "application/pdf"),
            ("width", "100%"), ("height", "600px")]
          [.elem "p" []
            [.text "PDF cannot be displayed. ",
             .elem "a" [("href", "note_contents/" ++ "doc.pdf")]
               [.text ("Download " ++ "doc.pdf")]]]
      else
        HNode.elem "a" [("href", "note_contents/" ++ "doc.pdf")] [.text "doc.pdf"]) :=
  media_reference_transformation [("h1", ⟨"doc.pdf", "ZGF0YQ==", "application/pdf", none, none⟩)]
    [("hash", "h1"), ("type", "application/pdf")] [] "h1" "application/pdf"
    ⟨"doc.pdf", "ZGF0YQ==", "application/pdf", none, none⟩ (by decide) (by decide) (by decide)

/-! ### Resource pipeline and OCR gating
(converter._process_resources_parallel, converter._perform_ocr) -/

/-- Python str.endswith on whole strings. -/
def strEndsWith (s suf : String) : Bool :=
  suf.data.isSuffixOf s.data

/-- Python str.lower restricted to the per-character mapping. -/
def pyLower (s : String) : String :=
  ⟨s.data.map Char.toLower⟩

/-- SVG test of the second pass: the lowercased assigned filename ends in
.svg. -/
def isSvgName (fn : String) : Bool :=
  strEndsWith (pyLower fn) ".svg"

/-- Python falsiness of an optional string: absent or empty. -/
def pyFalsyOptStr : Option String → Bool
  | none => true
  | some s => s == ""

/-- Embedding of xml.sax.saxutils.escape: ampersand, less-than and
greater-than are replaced by their entities. -/
def pyXmlEscape (s : String) : String :=
  ⟨(s.data.map fun c =>
    if c = '&' then "&amp;".data
    else if c = '<' then "&lt;".data
    else if c = '>' then "&gt;".data
    else [c]).flatten⟩

/-- External collaborators of the resource pipeline, one function per library
call, each Option-valued where the Python call can raise: base64.b64decode,
the md5 hex digest, mimetypes.guess_extension, PIL Image.open (reduced to the
original dimensions, all that the gate inspects) and the tesseract
recognition on the preprocessed image (the word list and the preprocessed
image dimensions; the deterministic preprocessing chain is folded into this
call since the claims only concern whether it is reached). -/
structure OcrEnv where
  decodeB64 : String → Option String
  md5Hex : String → String
  guessExt : String → Option String
  openImage : String → Option (Nat × Nat)
  tesseract : String → Option (List OcrWord × Nat × Nat)

/-- Embedding of _perform_ocr on one queued image: a failed open or an image
with either dimension below 50 returns no recognition before any tesseract
call (the Bool records whether tesseract was invoked); otherwise the words
are filtered (stripped text nonempty, confidence positive), and a nonempty
result is joined, CJK-fixed, escaped and wrapped in a recoIndex element. -/
def performOcr (env : OcrEnv) (data : String) : (Option String × Option OcrPos) × Bool :=
  match env.openImage data with
  | none => ((none, none), false)
  | some wh =>
    if wh.1 < 50 || wh.2 < 50 then ((none, none), false)
    else
      match env.tesseract data with
      | none => ((none, none), true)
      | some (words, pw, ph) =>
        let kept := words.filterMap (fun w =>
          let t := pyStrip w.text
          if t ≠ "" ∧ w.conf > 0 then some { w with text := t } else none)
        if kept.isEmpty then ((none, none), true)
        else
          let plain := cjkSpaceFix (String.intercalate " " (kept.map OcrWord.text))
          ((some ("<recoIndex><item><t>" ++ pyXmlEscape plain ++ "</t></item></recoIndex>"),
            some ⟨pw, ph, kept⟩), true)

/-- Dict-style insert-or-replace on the hash-keyed resource map. -/
def upsert (k : String) (v : ResInfo) : List (String × ResInfo) → List (String × ResInfo)
  | [] => [(k, v)]
  | (k2, v2) :: rest => if k2 = k then (k, v) :: rest else (k2, v2) :: upsert k v rest

/-- Synthesized-extension path of the filename computation for a resource
without a truthy original name: the stored mime value is handed to
mimetypes.guess_extension, which raises AttributeError on the None stored for
a present-but-empty mime element (dict.get returns the stored None, not the
default), aborting the resource; for a string mime a missing or empty guess
falls back to .bin.  none models the raise. -/
def synthName (env : OcrEnv) (md5 : String) (mime : Option String) : Option String :=
  match mime with
  | none => none
  | some m =>
    some (md5 ++ (match env.guessExt m with
                  | some e => if e = "" then ".bin" else e
                  | none => ".bin"))

/-- Base filename computed for a resource before sanitization; none when the
computation raises (falsy original name together with a None mime value). -/
def computedBase (env : OcrEnv) (r : ResRecord) (md5 : String) : Option String :=
  match r.filename with
  | some fn => if fn = "" then synthName env md5 r.mime else some fn
  | none => synthName env md5 r.mime

/-- State threaded through the first pass of _process_resources_parallel:
the hash-keyed resource map, the per-note seen-filename table, and the
queued OCR tasks (hash, decoded payload, assigned filename), in order. -/
structure PipeState where
  resMap : List (String × ResInfo)
  seen : List String
  tasks : List (String × String × String)

/-- Embedding of one iteration of the first pass: skip falsy payloads; drop
the resource when base64 decoding raises; drop it with no state change when
the extension guess raises on a None mime; otherwise hash, assign the
collision-free sanitized filename and record it in the seen table — at which
point mime = res.get('mime', ...) is read, so a None mime value raises in
mime.startswith and drops the resource after the seen insert but before the
map insert; for a string mime, store the map entry (recognition carried over
verbatim) and queue the resource for OCR exactly when no recognition is
present (Python falsiness), OCR is enabled and the mime starts with
image/. -/
def processOneRes (env : OcrEnv) (ch : String) (ocrEnabled : Bool)
    (st : PipeState) (res : ResRecord) : PipeState :=
  if res.dataB64 = "" then st
  else
    match env.decodeB64 res.dataB64 with
    | none => st
    | some data =>
      match computedBase env res (env.md5Hex data) with
      | none => st
      | some base0 =>
        match res.mime with
        | none =>
          ⟨st.resMap, resolveCollision st.seen (convSanitize ch base0) :: st.seen, st.tasks⟩
        | some mime =>
          ⟨upsert (env.md5Hex data)
              ⟨resolveCollision st.seen (convSanitize ch base0),
                res.dataB64, mime, res.recognition, none⟩ st.resMap,
            resolveCollision st.seen (convSanitize ch base0) :: st.seen,
            if pyFalsyOptStr res.recognition && ocrEnabled && strStartsWith mime "image/" then
              st.tasks ++ [(env.md5Hex data, data,
                resolveCollision st.seen (convSanitize ch base0))]
            else st.tasks⟩

/-- First (sequential) pass over the note's resources. -/
def pass1 (env : OcrEnv) (ch : String) (ocrEnabled : Bool) :
    PipeState → List ResRecord → PipeState
  | st, [] => st
  | st, r :: rest => pass1 env ch ocrEnabled (processOneRes env ch ocrEnabled st r) rest

/-- Map update performed when one OCR task completes: the entry for the
task's hash receives the recognition text and position data returned by
_perform_ocr on the task's payload. -/
def pass2Step (env : OcrEnv) (m : List (String × ResInfo))
    (task : String × String × String) : List (String × ResInfo) :=
  match List.lookup task.1 m with
  | some info =>
      upsert task.1
        { info with
          recognition := (performOcr env task.2.1).1.1
          ocrPos := (performOcr env task.2.1).1.2 } m
  | none => m

/-- Second pass: each queued task runs _perform_ocr and merges its result
into the map entry for its hash; the returned list collects the hashes for
which tesseract was actually invoked.  Completion order of the thread pool
is unconstrained in the code; tasks are merged here in submission order,
which fixes one admissible order (the claims below quantify over entries
whose hash is owned by a single task, for which the order is immaterial). -/
def pass2 (env : OcrEnv) : List (String × ResInfo) → List (String × String × String) →
    List (String × ResInfo) × List String
  | m, [] => (m, [])
  | m, task :: rest =>
    let rr := pass2 env (pass2Step env m task) rest
    (rr.1, (if (performOcr env task.2.1).2 then [task.1] else []) ++ rr.2)

/-- Full embedding of _process_resources_parallel: first pass, the SVG
filename filter on the queued tasks, then the OCR pass; returns the final
resource map and the hashes submitted to tesseract. -/
def processResourcesParallel (env : OcrEnv) (ch : String) (ocrEnabled : Bool)
    (resources : List ResRecord) : List (String × ResInfo) × List String :=
  let p1 := pass1 env ch ocrEnabled ⟨[], [], []⟩ resources
  pass2 env p1.resMap (p1.tasks.filter (fun t => !(isSvgName t.2.2)))

/-- Content hash a resource would be stored under, when it is processed at
all. -/
def hashOf (env : OcrEnv) (r : ResRecord) : Option String :=
  if r.dataB64 = "" then none
  else (env.decodeB64 r.dataB64).map env.md5Hex

theorem lookup_cons_self (k : String) (v : ResInfo) (m : List (String × ResInfo)) :
    List.lookup k ((k, v) :: m) = some v := by
  simp [List.lookup]

theorem lookup_cons_ne (k k2 : String) (v : ResInfo) (m : List (String × ResInfo))
    (h : k ≠ k2) : List.lookup k ((k2, v) :: m) = List.lookup k m := by
  have hbeq : (k == k2) = false := beq_eq_false_iff_ne.mpr h
  simp [List.lookup, hbeq]

theorem lookup_upsert_self (k : String) (v : ResInfo) (m : List (String × ResInfo)) :
    List.lookup k (upsert k v m) = some v := by
  induction m with
  | nil => exact lookup_cons_self k v []
  | cons p rest ih =>
    rcases p with ⟨k2, v2⟩
    by_cases h : k2 = k
    · subst h
      rw [upsert, if_pos rfl]
      exact lookup_cons_self _ v rest
    · rw [upsert, if_neg h, lookup_cons_ne k k2 v2 _ (fun hc => h hc.symm)]
      exact ih

theorem lookup_upsert_ne (k k2 : String) (v : ResInfo) (m : List (String × ResInfo))
    (h : k ≠ k2) : List.lookup k (upsert k2 v m) = List.lookup k m := by
  induction m with
  | nil => exact lookup_cons_ne k k2 v [] h
  | cons p rest ih =>
    rcases p with ⟨k3, v3⟩
    by_cases h3 : k3 = k2
    · subst h3
      rw [upsert, if_pos rfl, lookup_cons_ne k k3 v rest h, lookup_cons_ne k k3 v3 rest h]
    · rw [upsert, if_neg h3]
      by_cases hk : k = k3
      · subst hk
        rw [lookup_cons_self, lookup_cons_self]
      · rw [lookup_cons_ne k k3 v3 _ hk, lookup_cons_ne k k3 v3 _ hk]
        exact ih

theorem computedBase_some_of_mime (env : OcrEnv) (r : ResRecord) (md5 m : String)
    (hmime : r.mime = some m) : ∃ b, computedBase env r md5 = some b := by
  have hsyn : ∃ b, synthName env md5 r.mime = some b := by
    rw [hmime]
    exact ⟨_, rfl⟩
  unfold computedBase
  split
  · split
    · exact hsyn
    · exact ⟨_, rfl⟩
  · exact hsyn

theorem processOneRes_self (env : OcrEnv) (ch : String) (oe : Bool) (st : PipeState)
    (r : ResRecord) (d b m : String) (hdata : r.dataB64 ≠ "")
    (hdec : env.decodeB64 r.dataB64 = some d)
    (hbase : computedBase env r (env.md5Hex d) = some b)
    (hmime : r.mime = some m) :
    processOneRes env ch oe st r =
      ⟨upsert (env.md5Hex d)
          ⟨resolveCollision st.seen (convSanitize ch b),
            r.dataB64, m, r.recognition, none⟩ st.resMap,
        resolveCollision st.seen (convSanitize ch b) :: st.seen,
        if pyFalsyOptStr r.recognition && oe && strStartsWith m "image/" then
          st.tasks ++ [(env.md5Hex d, d, resolveCollision st.seen (convSanitize ch b))]
        else st.tasks⟩ := by
  unfold processOneRes
  rw [if_neg hdata]
  simp only [hdec, hbase, hmime]

theorem processOneRes_mime_none (env : OcrEnv) (ch : String) (oe : Bool)
    (st : PipeState) (r : ResRecord) (hmime : r.mime = none) :
    (processOneRes env ch oe st r).resMap = st.resMap ∧
    (processOneRes env ch oe st r).tasks = st.tasks := by
  by_cases hd : r.dataB64 = ""
  · unfold processOneRes
    rw [if_pos hd]
    exact ⟨rfl, rfl⟩
  · cases hdec : env.decodeB64 r.dataB64 with
    | none =>
      unfold processOneRes
      rw [if_neg hd]
      simp only [hdec]
      exact ⟨trivial, trivial⟩
    | some data =>
      cases hbase : computedBase env r (env.md5Hex data) with
      | none =>
        unfold processOneRes
        rw [if_neg hd]
        simp only [hdec, hbase]
        exact ⟨trivial, trivial⟩
      | some base0 =>
        unfold processOneRes
        rw [if_neg hd]
        simp only [hdec, hbase, hmime]
        exact ⟨trivial, trivial⟩

theorem processOneRes_other (env : OcrEnv) (ch : String) (oe : Bool) (st : PipeState)
    (r : ResRecord) (hh : String) (hne : hashOf env r ≠ some hh) :
    List.lookup hh (processOneRes env ch oe st r).resMap = List.lookup hh st.resMap ∧
    (processOneRes env ch oe st r).tasks.filter (fun t => t.1 == hh) =
      st.tasks.filter (fun t => t.1 == hh) := by
  by_cases hd : r.dataB64 = ""
  · unfold processOneRes
    simp [hd]
  · cases hdec : env.decodeB64 r.dataB64 with
    | none =>
      unfold processOneRes
      rw [if_neg hd]
      simp only [hdec]
      exact ⟨trivial, trivial⟩
    | some data =>
      have hmd : env.md5Hex data ≠ hh := fun hc => hne (by simp [hashOf, hd, hdec, hc])
      cases hbase : computedBase env r (env.md5Hex data) with
      | none =>
        unfold processOneRes
        rw [if_neg hd]
        simp only [hdec, hbase]
        exact ⟨trivial, trivial⟩
      | some base0 =>
        cases hmime : r.mime with
        | none =>
          unfold processOneRes
          rw [if_neg hd]
          simp only [hdec, hbase, hmime]
          exact ⟨trivial, trivial⟩
        | some mime =>
          unfold processOneRes
          rw [if_neg hd]
          simp only [hdec, hbase, hmime]
          refine ⟨lookup_upsert_ne hh (env.md5Hex data) _ _ (fun hc => hmd hc.symm), ?_⟩
          dsimp only
          split
          · rw [List.filter_append]
            have hsingle : List.filter (fun t => t.1 == hh)
                [(env.md5Hex data, data,
                  resolveCollision st.seen (convSanitize ch base0))] = [] := by
              simp [beq_eq_false_iff_ne.mpr hmd]
            rw [hsingle, List.append_nil]
          · rfl

theorem pass1_other (env : OcrEnv) (ch : String) (oe : Bool) (l : List ResRecord)
    (hh : String) (hnone : ∀ r2 ∈ l, hashOf env r2 ≠ some hh) :
    ∀ st, List.lookup hh (pass1 env ch oe st l).resMap = List.lookup hh st.resMap ∧
      (pass1 env ch oe st l).tasks.filter (fun t => t.1 == hh) =
        st.tasks.filter (fun t => t.1 == hh) := by
  induction l with
  | nil => intro st; exact ⟨rfl, rfl⟩
  | cons r2 rest ih =>
    intro st
    have h1 := processOneRes_other env ch oe st r2 hh (hnone r2 (List.mem_cons_self _ _))
    have h2 := ih (fun x hx => hnone x (List.mem_cons_of_mem _ hx))
      (processOneRes env ch oe st r2)
    exact ⟨h2.1.trans h1.1, h2.2.trans h1.2⟩

theorem pass2Step_lookup_ne (env : OcrEnv) (m : List (String × ResInfo))
    (task : String × String × String) (hh : String) (h : task.1 ≠ hh) :
    List.lookup hh (pass2Step env m task) = List.lookup hh m := by
  unfold pass2Step
  cases List.lookup task.1 m with
  | none => rfl
  | some info => exact lookup_upsert_ne hh task.1 _ m (fun hc => h hc.symm)

theorem pass2_no_hh (env : OcrEnv) (tasks : List (String × String × String)) (hh : String)
    (hfil : tasks.filter (fun t => t.1 == hh) = []) :
    ∀ m, List.lookup hh (pass2 env m tasks).1 = List.lookup hh m ∧
      hh ∉ (pass2 env m tasks).2 := by
  induction tasks with
  | nil => intro m; simp [pass2]
  | cons t rest ih =>
    intro m
    rcases t with ⟨k, data, fname⟩
    have hk : ¬ (k = hh) := by
      intro hc
      subst hc
      simp [List.filter_cons] at hfil
    have hfil2 : rest.filter (fun t => t.1 == hh) = [] := by
      simpa [List.filter_cons, hk] using hfil
    have hstep := pass2Step_lookup_ne env m (k, data, fname) hh hk
    have hr := ih hfil2 (pass2Step env m (k, data, fname))
    refine ⟨hr.1.trans hstep, ?_⟩
    show hh ∉ (if (performOcr env data).2 then [k] else []) ++ _
    intro hmem
    rcases List.mem_append.mp hmem with hmem | hmem
    · split at hmem
      · simp at hmem
        exact hk hmem.symm
      · simp at hmem
    · exact hr.2 hmem

theorem pass2_one_hh (env : OcrEnv) (tasks : List (String × String × String))
    (hh d fn : String)
    (hfil : tasks.filter (fun t => t.1 == hh) = [(hh, d, fn)]) :
    ∀ m info, List.lookup hh m = some info →
      List.lookup hh (pass2 env m tasks).1 =
        some { info with
            recognition := (performOcr env d).1.1
            ocrPos := (performOcr env d).1.2 } ∧
      (hh ∈ (pass2 env m tasks).2 ↔ (performOcr env d).2 = true) := by
  induction tasks with
  | nil =>
    intro m info _
    simp [List.filter] at hfil
  | cons t rest ih =>
    intro m info hinfo
    rcases t with ⟨k, data, fname⟩
    by_cases hk : k = hh
    · subst hk
      rw [List.filter_cons] at hfil
      simp only [beq_self_eq_true, if_pos, List.cons.injEq, Prod.mk.injEq] at hfil
      obtain ⟨⟨_, hd2, hf2⟩, hrest⟩ := hfil
      subst hd2
      subst hf2
      have hstep : List.lookup k (pass2Step env m (k, data, fname)) =
          some { info with
              recognition := (performOcr env data).1.1
              ocrPos := (performOcr env data).1.2 } := by
        unfold pass2Step
        simp only [hinfo]
        exact lookup_upsert_self k _ m
      have hr := pass2_no_hh env rest k hrest (pass2Step env m (k, data, fname))
      refine ⟨hr.1.trans hstep, ?_⟩
      show k ∈ (if (performOcr env data).2 then [k] else []) ++ _ ↔ _
      constructor
      · intro hmem
        rcases List.mem_append.mp hmem with hmem | hmem
        · split at hmem
          · assumption
          · simp at hmem
        · exact absurd hmem hr.2
      · intro hcall
        rw [if_pos hcall]
        exact List.mem_append.mpr (Or.inl (List.mem_cons_self _ _))
    · have hfil2 : rest.filter (fun t => t.1 == hh) = [(hh, d, fn)] := by
        simpa [List.filter_cons, hk] using hfil
      have hstep := pass2Step_lookup_ne env m (k, data, fname) hh hk
      have hr := ih hfil2 (pass2Step env m (k, data, fname)) info (hstep.trans hinfo)
      refine ⟨hr.1, ?_⟩
      show hh ∈ (if (performOcr env data).2 then [k] else []) ++ _ ↔ _
      rw [← hr.2]
      constructor
      · intro hmem
        rcases List.mem_append.mp hmem with hmem | hmem
        · split at hmem
          · simp at hmem
            exact absurd hmem.symm hk
          · simp at hmem
        · exact hmem
      · intro hmem
        exact List.mem_append.mpr (Or.inr hmem)

theorem pass1_append (env : OcrEnv) (ch : String) (oe : Bool)
    (l1 l2 : List ResRecord) : ∀ st,
    pass1 env ch oe st (l1 ++ l2) = pass1 env ch oe (pass1 env ch oe st l1) l2 := by
  induction l1 with
  | nil => intro st; rfl
  | cons x rest ih =>
    intro st
    show pass1 env ch oe (processOneRes env ch oe st x) (rest ++ l2) = _
    rw [ih]
    rfl

theorem filter_swap (p q : (String × String × String) → Bool)
    (l : List (String × String × String)) :
    (l.filter p).filter q = (l.filter q).filter p := by
  rw [List.filter_filter, List.filter_filter]
  exact List.filter_congr (fun a _ => by rw [Bool.and_comm])

/-- C4 (amended): a resource whose mime type is not an image, or whose image
has a dimension below the 50-pixel threshold, is never submitted to the
recognition engine.  A resource whose stored mime value is None (a
present-but-empty mime element; dict.get returns the stored None) is dropped
from the resource map entirely by the per-resource exception handler, since
mime.startswith raises on it.  Otherwise the map entry carries the original
payload and mime with the recognition field unchanged — except that when the
resource had been queued for OCR (possible only for an image resource with
Python-falsy recognition while OCR is enabled whose assigned filename is not
an SVG name) the field is overwritten with the gate's empty result, so an
empty-string pre-supplied recognition is normalized to absent. -/
theorem ocr_gating (env : OcrEnv) (ch : String) (ocrEnabled : Bool)
    (pre post : List ResRecord) (r : ResRecord) (d : String)
    (hdata : r.dataB64 ≠ "")
    (hdec : env.decodeB64 r.dataB64 = some d)
    (huniq : ∀ r2 ∈ pre ++ post, hashOf env r2 ≠ some (env.md5Hex d))
    (hgate : (∀ m, r.mime = some m → strStartsWith m "image/" = false) ∨
      ∃ w h, env.openImage d = some (w, h) ∧ (w < 50 ∨ h < 50)) :
    env.md5Hex d ∉ (processResourcesParallel env ch ocrEnabled (pre ++ r :: post)).2 ∧
    (r.mime = none →
      List.lookup (env.md5Hex d)
        (processResourcesParallel env ch ocrEnabled (pre ++ r :: post)).1 = none) ∧
    ∀ m, r.mime = some m →
      ∃ info, List.lookup (env.md5Hex d)
          (processResourcesParallel env ch ocrEnabled (pre ++ r :: post)).1 = some info ∧
        info.dataB64 = r.dataB64 ∧ info.mime = m ∧
        info.recognition =
          (if pyFalsyOptStr r.recognition && ocrEnabled && strStartsWith m "image/" &&
              !(isSvgName info.filename) then
            none
          else r.recognition) := by
  have hpre : ∀ r2 ∈ pre, hashOf env r2 ≠ some (env.md5Hex d) :=
    fun r2 h2 => huniq r2 (List.mem_append.mpr (Or.inl h2))
  have hpost : ∀ r2 ∈ post, hashOf env r2 ≠ some (env.md5Hex d) :=
    fun r2 h2 => huniq r2 (List.mem_append.mpr (Or.inr h2))
  have h1 := pass1_other env ch ocrEnabled pre (env.md5Hex d) hpre
    (⟨[], [], []⟩ : PipeState)
  have h3 := pass1_other env ch ocrEnabled post (env.md5Hex d) hpost
    (processOneRes env ch ocrEnabled (pass1 env ch ocrEnabled ⟨[], [], []⟩ pre) r)
  have hp1 : pass1 env ch ocrEnabled ⟨[], [], []⟩ (pre ++ r :: post) =
      pass1 env ch ocrEnabled
        (processOneRes env ch ocrEnabled (pass1 env ch ocrEnabled ⟨[], [], []⟩ pre) r)
        post := by
    rw [pass1_append]
    rfl
  have hproc : processResourcesParallel env ch ocrEnabled (pre ++ r :: post) =
      pass2 env
        (pass1 env ch ocrEnabled
          (processOneRes env ch ocrEnabled (pass1 env ch ocrEnabled ⟨[], [], []⟩ pre) r)
          post).resMap
        ((pass1 env ch ocrEnabled
          (processOneRes env ch ocrEnabled (pass1 env ch ocrEnabled ⟨[], [], []⟩ pre) r)
          post).tasks.filter (fun t => !(isSvgName t.2.2))) := by
    unfold processResourcesParallel
    rw [hp1]
  have hfilterF : ((pass1 env ch ocrEnabled
      (processOneRes env ch ocrEnabled (pass1 env ch ocrEnabled ⟨[], [], []⟩ pre) r)
      post).tasks.filter (fun t => !(isSvgName t.2.2))).filter
        (fun t => t.1 == env.md5Hex d) =
      ((pass1 env ch ocrEnabled
        (processOneRes env ch ocrEnabled (pass1 env ch ocrEnabled ⟨[], [], []⟩ pre) r)
        post).tasks.filter (fun t => t.1 == env.md5Hex d)).filter
          (fun t => !(isSvgName t.2.2)) :=
    filter_swap _ _ _
  rw [hproc]
  cases hmime0 : r.mime with
  | none =>
    have hstepn := processOneRes_mime_none env ch ocrEnabled
      (pass1 env ch ocrEnabled ⟨[], [], []⟩ pre) r hmime0
    have hlk2 : List.lookup (env.md5Hex d)
        (processOneRes env ch ocrEnabled (pass1 env ch ocrEnabled ⟨[], [], []⟩ pre) r).resMap =
        none := by
      rw [hstepn.1, h1.1]
      rfl
    have htasks2 : (processOneRes env ch ocrEnabled
        (pass1 env ch ocrEnabled ⟨[], [], []⟩ pre) r).tasks.filter
          (fun t => t.1 == env.md5Hex d) = [] := by
      rw [hstepn.2, h1.2]
      rfl
    have hfe : ((pass1 env ch ocrEnabled
        (processOneRes env ch ocrEnabled (pass1 env ch ocrEnabled ⟨[], [], []⟩ pre) r)
        post).tasks.filter (fun t => !(isSvgName t.2.2))).filter
          (fun t => t.1 == env.md5Hex d) = [] := by
      rw [hfilterF, h3.2.trans htasks2]
      rfl
    have hres := pass2_no_hh env _ (env.md5Hex d) hfe
      (pass1 env ch ocrEnabled
        (processOneRes env ch ocrEnabled (pass1 env ch ocrEnabled ⟨[], [], []⟩ pre) r)
        post).resMap
    exact ⟨hres.2, fun _ => hres.1.trans (h3.1.trans hlk2),
      fun m hm => absurd hm (by simp)⟩
  | some m =>
    obtain ⟨b, hbase⟩ := computedBase_some_of_mime env r (env.md5Hex d) m hmime0
    have hself := processOneRes_self env ch ocrEnabled
      (pass1 env ch ocrEnabled ⟨[], [], []⟩ pre) r d b m hdata hdec hbase hmime0
    have hlk2 : List.lookup (env.md5Hex d)
        (processOneRes env ch ocrEnabled (pass1 env ch ocrEnabled ⟨[], [], []⟩ pre) r).resMap =
        some ⟨resolveCollision (pass1 env ch ocrEnabled ⟨[], [], []⟩ pre).seen
                (convSanitize ch b),
              r.dataB64, m, r.recognition, none⟩ := by
      rw [hself]
      exact lookup_upsert_self _ _ _
    have htasks2 : (processOneRes env ch ocrEnabled
        (pass1 env ch ocrEnabled ⟨[], [], []⟩ pre) r).tasks.filter
          (fun t => t.1 == env.md5Hex d) =
        (if pyFalsyOptStr r.recognition && ocrEnabled && strStartsWith m "image/"
         then [(env.md5Hex d, d,
            resolveCollision (pass1 env ch ocrEnabled ⟨[], [], []⟩ pre).seen
              (convSanitize ch b))]
         else []) := by
      rw [hself]
      dsimp only
      split
      · rw [List.filter_append, h1.2]
        simp [List.filter]
      · rw [h1.2]
        simp [List.filter]
    have hlk3 : List.lookup (env.md5Hex d)
        (pass1 env ch ocrEnabled
          (processOneRes env ch ocrEnabled (pass1 env ch ocrEnabled ⟨[], [], []⟩ pre) r)
          post).resMap =
        some ⟨resolveCollision (pass1 env ch ocrEnabled ⟨[], [], []⟩ pre).seen
                (convSanitize ch b),
              r.dataB64, m, r.recognition, none⟩ := h3.1.trans hlk2
    have htasks3 := h3.2.trans htasks2
    by_cases hcond : (pyFalsyOptStr r.recognition && ocrEnabled &&
        strStartsWith m "image/") = true
    · by_cases hsvg : isSvgName (resolveCollision
          (pass1 env ch ocrEnabled ⟨[], [], []⟩ pre).seen (convSanitize ch b)) = true
      · -- queued but filtered out as an SVG filename: entry untouched
        have hfe : ((pass1 env ch ocrEnabled
            (processOneRes env ch ocrEnabled (pass1 env ch ocrEnabled ⟨[], [], []⟩ pre) r)
            post).tasks.filter (fun t => !(isSvgName t.2.2))).filter
              (fun t => t.1 == env.md5Hex d) = [] := by
          rw [hfilterF, htasks3, if_pos hcond]
          simp [List.filter, hsvg]
        have hres := pass2_no_hh env _ (env.md5Hex d) hfe
          (pass1 env ch ocrEnabled
            (processOneRes env ch ocrEnabled (pass1 env ch ocrEnabled ⟨[], [], []⟩ pre) r)
            post).resMap
        refine ⟨hres.2, fun hc => absurd hc (by simp), fun m2 hm2 => ?_⟩
        obtain rfl : m = m2 := Option.some.inj hm2
        refine ⟨_, hres.1.trans hlk3, rfl, rfl, ?_⟩
        rw [if_neg]
        simp only [Bool.and_eq_true] at hcond ⊢
        intro hc
        rw [hsvg] at hc
        simp at hc
      · -- queued and the single task for this hash runs into the gate
        have hfe : ((pass1 env ch ocrEnabled
            (processOneRes env ch ocrEnabled (pass1 env ch ocrEnabled ⟨[], [], []⟩ pre) r)
            post).tasks.filter (fun t => !(isSvgName t.2.2))).filter
              (fun t => t.1 == env.md5Hex d) =
            [(env.md5Hex d, d,
              resolveCollision (pass1 env ch ocrEnabled ⟨[], [], []⟩ pre).seen
                (convSanitize ch b))] := by
          rw [hfilterF, htasks3, if_pos hcond]
          simp [List.filter, hsvg]
        have himg : strStartsWith m "image/" = true := by
          simp only [Bool.and_eq_true] at hcond
          exact hcond.2
        have hsmall : ∃ w h, env.openImage d = some (w, h) ∧ (w < 50 ∨ h < 50) := by
          rcases hgate with hg | hg
          · have := hg m hmime0
            rw [himg] at this
            exact absurd this (by simp)
          · exact hg
        obtain ⟨w, h, hopen, hwh⟩ := hsmall
        have hperf : performOcr env d = ((none, none), false) := by
          unfold performOcr
          rw [hopen]
          have hdec2 : (decide (w < 50) || decide (h < 50)) = true := by
            rcases hwh with hw | hw <;> simp [hw]
          simp only [hdec2, if_pos]
        have hres := pass2_one_hh env _ (env.md5Hex d) d _ hfe _ _ hlk3
        rw [hperf] at hres
        refine ⟨fun hc => by simpa using hres.2.mp hc, fun hc => absurd hc (by simp),
          fun m2 hm2 => ?_⟩
        obtain rfl : m = m2 := Option.some.inj hm2
        refine ⟨_, hres.1, rfl, rfl, ?_⟩
        rw [if_pos]
        simp only [Bool.and_eq_true] at hcond ⊢
        exact ⟨⟨hcond.1, hcond.2⟩, by simp [hsvg]⟩
    · -- never queued: entry untouched, no recognition call
      have hfe : ((pass1 env ch ocrEnabled
          (processOneRes env ch ocrEnabled (pass1 env ch ocrEnabled ⟨[], [], []⟩ pre) r)
          post).tasks.filter (fun t => !(isSvgName t.2.2))).filter
            (fun t => t.1 == env.md5Hex d) = [] := by
        rw [hfilterF, htasks3, if_neg hcond]
        rfl
      have hres := pass2_no_hh env _ (env.md5Hex d) hfe
        (pass1 env ch ocrEnabled
          (processOneRes env ch ocrEnabled (pass1 env ch ocrEnabled ⟨[], [], []⟩ pre) r)
          post).resMap
      refine ⟨hres.2, fun hc => absurd hc (by simp), fun m2 hm2 => ?_⟩
      obtain rfl : m = m2 := Option.some.inj hm2
      refine ⟨_, hres.1.trans hlk3, rfl, rfl, ?_⟩
      rw [if_neg]
      intro hc
      simp only [Bool.and_eq_true] at hc hcond
      exact hcond ⟨⟨hc.1.1.1, hc.1.1.2⟩, hc.1.2⟩

/-- C4 witness: a pdf resource (non-image mime) with pre-supplied recognition
text passes through the pipeline untouched and is never submitted for
recognition. -/
theorem ocr_gating_witness :
    "payload" ∉ (processResourcesParallel
        ⟨fun s => some s, fun s => s, fun _ => none, fun _ => none, fun _ => none⟩ "_" true
        ([] ++ (⟨"payload", some "application/pdf", some "doc.pdf", some "reco"⟩ : ResRecord)
          :: [])).2 ∧
    ((⟨"payload", some "application/pdf", some "doc.pdf", some "reco"⟩ : ResRecord).mime =
        none →
      List.lookup "payload" (processResourcesParallel
        ⟨fun s => some s, fun s => s, fun _ => none, fun _ => none, fun _ => none⟩ "_" true
        ([] ++ (⟨"payload", some "application/pdf", some "doc.pdf", some "reco"⟩ : ResRecord)
          :: [])).1 = none) ∧
    ∀ m, (⟨"payload", some "application/pdf", some "doc.pdf", some "reco"⟩ : ResRecord).mime =
        some m →
      ∃ info, List.lookup "payload" (processResourcesParallel
          ⟨fun s => some s, fun s => s, fun _ => none, fun _ => none, fun _ => none⟩ "_" true
          ([] ++ (⟨"payload", some "application/pdf", some "doc.pdf", some "reco"⟩ : ResRecord)
            :: [])).1 = some info ∧
        info.dataB64 = "payload" ∧ info.mime = m ∧
        info.recognition =
          (if pyFalsyOptStr (some "reco") && true && strStartsWith m "image/" &&
              !(isSvgName info.filename) then
            none
          else some "reco") := by
  exact ocr_gating
    ⟨fun s => some s, fun s => s, fun _ => none, fun _ => none, fun _ => none⟩ "_" true
    [] [] ⟨"payload", some "application/pdf", some "doc.pdf", some "reco"⟩ "payload"
    (by decide) rfl (by simp)
    (Or.inl (fun m hm => by
      rw [← Option.some.inj hm]
      decide))

/-- C4 counterexample: an image resource whose pre-supplied recognition text
is the empty string (a whitespace-only recognition element in the source) is
Python-falsy, so it is queued for OCR; the 30 by 30 image is rejected by the
size gate before any recognition call, and the completing task overwrites the
entry's recognition with its empty result — the field changes from the empty
string to absent, so the recognition text field after the pipeline does not
equal the field before. -/
theorem ocr_preserves_recognition_cex :
    ((processResourcesParallel
        ⟨fun s => some s, fun s => s, fun _ => none, fun _ => some (30, 30),
          fun _ => some ([], 0, 0)⟩ "_" true
        [⟨"payload", some "image/png", some "a.png", some ""⟩]).1 =
      [("payload", ⟨"a.png", "payload", "image/png", none, none⟩)]) ∧
    (⟨"payload", some "image/png", some "a.png", some ""⟩ : ResRecord).recognition =
      some "" ∧
    (none : Option String) ≠ some "" := by
  decide

end Enex2md
